import Mathlib

/-!
Verification of the serato-connect decoding layer.

The TypeScript sources are embedded shallowly:

* Node Buffers are lists of byte values (natural numbers; real buffers hold
  values below 256, and no definition depends on that bound unless a theorem
  states it).
* JavaScript strings are lists of UTF-16 code units (natural numbers).
* Buffer reads that Node would reject with a range error are modelled by
  Option-valued readers; a thrown exception surfaces as the value none of the
  surrounding parser.
* IEEE floats that the parsers merely copy (beatgrid positions and BPM words,
  flip action positions) are kept as their raw big-endian bit words, which is
  an injective representation; numeric text that the database parser feeds to
  the JavaScript parseFloat and parseInt functions is modelled with exact
  rational arithmetic (no rounding, no Infinity literal, no underflow).
-/

/-! ## Byte-buffer primitives -/

/-- Read one byte at an index, as Node Buffer indexing does inside bounds. -/
def bufGet (buf : List Nat) (i : Nat) : Nat := buf.getD i 0

/-- Slice of a buffer, clamping like the Node subarray method. -/
def bufSlice (buf : List Nat) (offset len : Nat) : List Nat :=
  (buf.drop offset).take len

/-- Total big-endian 32-bit read; used only where the source has already
checked that four bytes are available. -/
def readU32 (buf : List Nat) (off : Nat) : Nat :=
  bufGet buf off * 2 ^ 24 + bufGet buf (off + 1) * 2 ^ 16 +
    bufGet buf (off + 2) * 2 ^ 8 + bufGet buf (off + 3)

/-- Total big-endian 16-bit read, guarded at all call sites. -/
def readU16 (buf : List Nat) (off : Nat) : Nat :=
  bufGet buf off * 2 ^ 8 + bufGet buf (off + 1)

/-- Node readUInt32BE: range-checked, throwing (none) past the end. -/
def readU32? (buf : List Nat) (off : Nat) : Option Nat :=
  if off + 4 ≤ buf.length then some (readU32 buf off) else none

/-- Node readUInt8: range-checked, throwing (none) past the end. -/
def readU8? (buf : List Nat) (off : Nat) : Option Nat :=
  if off + 1 ≤ buf.length then some (bufGet buf off) else none

/-! ## Serato32 codec (src/encoding/serato32.ts)

The source operates on JavaScript numbers with the 32-bit bitwise operators;
for byte-sized inputs those coincide with the corresponding operators on
natural numbers used here. -/

namespace Serato32

/-- Decode 4 Serato32-encoded bytes into 3 plaintext bytes
(function decode in serato32.ts). -/
def decode (enc1 enc2 enc3 enc4 : Nat) : Nat × Nat × Nat :=
  let dec3 := (enc4 &&& 0x7f) ||| ((enc3 &&& 0x01) <<< 7)
  let dec2 := ((enc3 &&& 0x7f) >>> 1) ||| ((enc2 &&& 0x03) <<< 6)
  let dec1 := ((enc2 &&& 0x7f) >>> 2) ||| ((enc1 &&& 0x07) <<< 5)
  (dec1, dec2, dec3)

/-- Encode 3 plaintext bytes into 4 Serato32-encoded bytes
(function encode in serato32.ts). -/
def encode (dec1 dec2 dec3 : Nat) : Nat × Nat × Nat × Nat :=
  let enc4 := dec3 &&& 0x7f
  let enc3 := ((dec3 >>> 7) ||| (dec2 <<< 1)) &&& 0x7f
  let enc2 := ((dec2 >>> 6) ||| (dec1 <<< 2)) &&& 0x7f
  let enc1 := dec1 >>> 5
  (enc1, enc2, enc3, enc4)

theorem lor_low_high (low hi k : Nat) (h : low < 2 ^ k) :
    low ||| (hi <<< k) = hi * 2 ^ k + low := by
  rw [Nat.lor_comm, Nat.shiftLeft_eq, Nat.mul_comm hi, ← Nat.mul_add_lt_is_or h]

theorem land_mod (x : Nat) :
    x &&& 0x7f = x % 128 ∧ x &&& 0x01 = x % 2 ∧ x &&& 0x03 = x % 4 ∧
      x &&& 0x07 = x % 8 := by
  refine ⟨?_, ?_, ?_, ?_⟩
  · have := Nat.and_pow_two_sub_one_eq_mod x 7; norm_num at this; exact this
  · exact Nat.and_one_is_mod x
  · have := Nat.and_pow_two_sub_one_eq_mod x 2; norm_num at this; exact this
  · have := Nat.and_pow_two_sub_one_eq_mod x 3; norm_num at this; exact this

theorem decode_arith (e1 e2 e3 e4 : Nat) :
    decode e1 e2 e3 e4 =
      ((e1 % 8) * 32 + e2 % 128 / 4, (e2 % 4) * 64 + e3 % 128 / 2,
        (e3 % 2) * 128 + e4 % 128) := by
  show ((((e2 &&& 0x7f) >>> 2) ||| ((e1 &&& 0x07) <<< 5)),
      (((e3 &&& 0x7f) >>> 1) ||| ((e2 &&& 0x03) <<< 6)),
      ((e4 &&& 0x7f) ||| ((e3 &&& 0x01) <<< 7))) = _
  rw [(land_mod e1).2.2.2, (land_mod e2).1, (land_mod e2).2.2.1,
    (land_mod e3).1, (land_mod e3).2.1, (land_mod e4).1,
    Nat.shiftRight_eq_div_pow, Nat.shiftRight_eq_div_pow]
  rw [lor_low_high _ _ 5 (by omega), lor_low_high _ _ 6 (by omega),
    lor_low_high _ _ 7 (by omega)]
  norm_num

theorem encode_arith (d1 d2 d3 : Nat) (h2 : d2 < 256) (h3 : d3 < 256) :
    encode d1 d2 d3 =
      (d1 / 32, (d1 * 4 + d2 / 64) % 128, (d2 * 2 + d3 / 128) % 128,
        d3 % 128) := by
  show (d1 >>> 5, ((d2 >>> 6) ||| (d1 <<< 2)) &&& 0x7f,
      ((d3 >>> 7) ||| (d2 <<< 1)) &&& 0x7f, d3 &&& 0x7f) = _
  rw [(land_mod d3).1, (land_mod _).1, (land_mod _).1,
    Nat.shiftRight_eq_div_pow, Nat.shiftRight_eq_div_pow,
    Nat.shiftRight_eq_div_pow]
  rw [lor_low_high _ _ 2 (by omega), lor_low_high _ _ 1 (by omega)]
  norm_num

end Serato32

/-- C3: BitPack32 round-trips: decoding the four bytes produced by encode
returns exactly the original byte triple, for all byte values. -/
theorem serato32_roundtrip (a b c : Nat) (ha : a < 256) (hb : b < 256)
    (hc : c < 256) :
    Serato32.decode (Serato32.encode a b c).1 (Serato32.encode a b c).2.1
      (Serato32.encode a b c).2.2.1 (Serato32.encode a b c).2.2.2 =
      (a, b, c) := by
  rw [Serato32.encode_arith a b c hb hc]
  rw [Serato32.decode_arith]
  refine Prod.ext ?_ (Prod.ext ?_ ?_) <;> simp only <;> omega

/-- C3 witness: the round-trip theorem applied at the two corner triples the
spec names, (0,0,0) and (255,255,255). -/
theorem serato32_roundtrip_witness :
    Serato32.decode (Serato32.encode 0 0 0).1 (Serato32.encode 0 0 0).2.1
        (Serato32.encode 0 0 0).2.2.1 (Serato32.encode 0 0 0).2.2.2 =
        (0, 0, 0) ∧
      Serato32.decode (Serato32.encode 255 255 255).1
        (Serato32.encode 255 255 255).2.1 (Serato32.encode 255 255 255).2.2.1
        (Serato32.encode 255 255 255).2.2.2 = (255, 255, 255) :=
  ⟨serato32_roundtrip 0 0 0 (by decide) (by decide) (by decide),
    serato32_roundtrip 255 255 255 (by decide) (by decide) (by decide)⟩

/-! ## JavaScript string helpers

Strings appear as lists of UTF-16 code units throughout. -/

/-- Characters matched by the JavaScript regular-expression class backslash-s
(the WhiteSpace and LineTerminator productions of ECMAScript). -/
def jsWhitespace (c : Nat) : Bool :=
  c = 9 ∨ c = 10 ∨ c = 11 ∨ c = 12 ∨ c = 13 ∨ c = 32 ∨ c = 0xa0 ∨
    c = 0x1680 ∨ (0x2000 ≤ c ∧ c ≤ 0x200a) ∨ c = 0x2028 ∨ c = 0x2029 ∨
    c = 0x202f ∨ c = 0x205f ∨ c = 0x3000 ∨ c = 0xfeff

/-- ASCII decimal digit test on a code unit. -/
def isDigitCU (c : Nat) : Bool := 48 ≤ c ∧ c ≤ 57

/-- Value of a string of decimal digit code units. -/
def digitsVal (ds : List Nat) : Nat := ds.foldl (fun a c => a * 10 + (c - 48)) 0

/-- Exact decimal number: the represented value is num divided by ten to the
scale. Used to model IEEE doubles produced by the JavaScript parseFloat
exactly on decimal text; the claims only ever ask whether the value is zero,
which holds exactly when num is zero. -/
structure JsNum : Type where
  num : Int
  scale : Nat
deriving DecidableEq

/-- Model of the JavaScript parseFloat function: skip whitespace, optional
sign, decimal digits with optional fraction, optional decimal exponent; none
models NaN. Values are exact decimals: IEEE rounding, the Infinity literal
and underflow to zero are outside the model, which is used only to compare
parse results against zero. -/
def jsParseFloat (s : List Nat) : Option JsNum :=
  let s1 := s.dropWhile (fun c => jsWhitespace c)
  let signAndRest : Int × List Nat :=
    match s1 with
    | 43 :: r => (1, r)
    | 45 :: r => (-1, r)
    | r => (1, r)
  let sign := signAndRest.1
  let s2 := signAndRest.2
  let intPart := s2.takeWhile (fun c => isDigitCU c)
  let s3 := s2.dropWhile (fun c => isDigitCU c)
  let fracAndRest : List Nat × List Nat :=
    match s3 with
    | 46 :: r => (r.takeWhile (fun c => isDigitCU c),
        r.dropWhile (fun c => isDigitCU c))
    | r => ([], r)
  let fracPart := fracAndRest.1
  if intPart = [] ∧ fracPart = [] then none
  else
    let mantNum : Int := sign * (digitsVal (intPart ++ fracPart) : Int)
    let mantScale : Nat := fracPart.length
    let expVal : Int :=
      match fracAndRest.2 with
      | e :: rest =>
        if e = 101 ∨ e = 69 then
          let esignAndRest : Int × List Nat :=
            match rest with
            | 43 :: r => (1, r)
            | 45 :: r => (-1, r)
            | r => (1, r)
          let eds := esignAndRest.2.takeWhile (fun c => isDigitCU c)
          if eds = [] then 0 else esignAndRest.1 * (digitsVal eds : Int)
        else 0
      | [] => 0
    if expVal ≥ 0 then some ⟨mantNum * (10 : Int) ^ expVal.toNat, mantScale⟩
    else some ⟨mantNum, mantScale + expVal.natAbs⟩

/-- Model of the JavaScript parseInt function with radix 10: skip whitespace,
optional sign, then the longest decimal digit run; none models NaN. -/
def jsParseInt (s : List Nat) : Option Int :=
  let s1 := s.dropWhile (fun c => jsWhitespace c)
  let signAndRest : Int × List Nat :=
    match s1 with
    | 43 :: r => (1, r)
    | 45 :: r => (-1, r)
    | r => (1, r)
  let ds := signAndRest.2.takeWhile (fun c => isDigitCU c)
  if ds = [] then none else some (signAndRest.1 * (digitsVal ds : Int))

/-- Decode a UTF-16 big-endian byte slice into code units, stripping NUL
units. The source swaps byte pairs and feeds the Node UTF-16 LE decoder (an
odd trailing byte is ignored), then removes NUL characters with a global
regular-expression replace; the composition reads big-endian pairs directly
(crate.ts and database readUtf16BE; the database variant's early return for
byte lengths below 2 coincides with the general case). -/
def readUtf16BE (buffer : List Nat) (offset len : Nat) : List Nat :=
  (beUnits (bufSlice buffer offset len)).filter (· ≠ 0)
where
  /-- Big-endian 16-bit units of a byte list, dropping an odd trailing byte. -/
  beUnits : List Nat → List Nat
  | b1 :: b2 :: rest => (b1 * 256 + b2) :: beUnits rest
  | _ => []

/-- Four tag bytes decoded with the Node ascii codec, which keeps only the
low seven bits of each byte. -/
def asciiTag (buf : List Nat) (off : Nat) : List Nat :=
  (bufSlice buf off 4).map (· &&& 0x7f)

/-! ## Crate decoder (src/parsers/crate.ts, parseCrateData) -/

namespace Crate

/-- Tag vrsn as ascii-decoded bytes. -/
def vrsnTag : List Nat := [118, 114, 115, 110]

/-- Tag otrk as ascii-decoded bytes. -/
def otrkTag : List Nat := [111, 116, 114, 107]

/-- Tag ptrk as ascii-decoded bytes. -/
def ptrkTag : List Nat := [112, 116, 114, 107]

/-- Inner while loop of parseCrateData over one otrk payload: collects ptrk
paths (non-empty after NUL stripping) into the shared accumulator. -/
def trackLoop (trackData : List Nat) (trackOffset : Nat)
    (acc : List (List Nat)) : List (List Nat) :=
  if h : trackOffset + 8 ≤ trackData.length then
    let innerTag := asciiTag trackData trackOffset
    let innerLength := readU32 trackData (trackOffset + 4)
    if h2 : trackOffset + 8 + innerLength ≤ trackData.length then
      let acc2 :=
        if innerTag = ptrkTag then
          let trackPath := readUtf16BE trackData (trackOffset + 8) innerLength
          if trackPath ≠ [] then acc ++ [trackPath] else acc
        else acc
      trackLoop trackData (trackOffset + 8 + innerLength) acc2
    else acc
  else acc
termination_by trackData.length - trackOffset
decreasing_by omega

/-- Outer while loop of parseCrateData: version assignments (last vrsn wins)
and otrk containers scanned for ptrk paths. -/
def crateLoop (data : List Nat) (offset : Nat) (version : Option (List Nat))
    (trackPaths : List (List Nat)) : Option (List Nat) × List (List Nat) :=
  if h : offset + 8 ≤ data.length then
    let tag := asciiTag data offset
    let length := readU32 data (offset + 4)
    if h2 : offset + 8 + length ≤ data.length then
      if tag = vrsnTag then
        crateLoop data (offset + 8 + length)
          (some (readUtf16BE data (offset + 8) length)) trackPaths
      else if tag = otrkTag then
        crateLoop data (offset + 8 + length) version
          (trackLoop (bufSlice data (offset + 8) length) 0 trackPaths)
      else
        crateLoop data (offset + 8 + length) version trackPaths
    else (version, trackPaths)
  else (version, trackPaths)
termination_by data.length - offset
decreasing_by all_goals omega

/-- Function parseCrateData: whole-buffer walk from offset 0. -/
def parseCrateData (data : List Nat) : Option (List Nat) × List (List Nat) :=
  crateLoop data 0 none []

end Crate

/-! ## Database decoder (unnamed database module, parseDatabaseData) -/

namespace Db

/-- Value produced by parseFieldValue: the TypeScript union
string | number | boolean | Buffer | null. -/
inductive JsValue : Type where
  | vstr (units : List Nat)
  | vnum (n : Nat)
  | vbool (b : Bool)
  | vbuf (bytes : List Nat)
  | vnull
deriving DecidableEq

/-- Function parseFieldValue: dispatch on the first character of the tag. -/
def parseFieldValue (tag : List Nat) (data : List Nat) : JsValue :=
  if data.length = 0 then .vnull
  else
    let c := tag.headD 0
    if c = 116 ∨ c = 112 then .vstr (readUtf16BE data 0 data.length)
    else if c = 98 then .vbool (bufGet data 0 ≠ 0)
    else if c = 117 then
      if data.length ≥ 4 then .vnum (readU32 data 0) else .vnull
    else if c = 115 then
      if data.length ≥ 2 then .vnum (readU16 data 0) else .vnull
    else .vbuf data

/-- Track record of the database decoder. All fields optional during
accumulation; parseTrackEntry returns the record only when filePath is a
truthy string. -/
structure SeratoDatabaseTrack : Type where
  filePath : Option (List Nat) := none
  title : Option (List Nat) := none
  artist : Option (List Nat) := none
  album : Option (List Nat) := none
  genre : Option (List Nat) := none
  key : Option (List Nat) := none
  bpm : Option JsNum := none
  length : Option JsNum := none
  bitrate : Option Int := none
  sampleRate : Option Int := none
  fileType : Option (List Nat) := none
  beatgridLocked : Option Bool := none
  missing : Option Bool := none
  dateAdded : Option Nat := none
  comment : Option (List Nat) := none
  grouping : Option (List Nat) := none
  composer : Option (List Nat) := none
  label : Option (List Nat) := none
  year : Option Int := none
deriving DecidableEq

/-- Numeric text field assignment, parseFloat(value) || undefined: a NaN or
zero parse leaves the field absent (the represented value is zero exactly
when the numerator is). -/
def floatOrNone (s : List Nat) : Option JsNum :=
  match jsParseFloat s with
  | some q => if q.num = 0 then none else some q
  | none => none

/-- Numeric text field assignment, parseInt(value, 10) || undefined. -/
def intOrNone (s : List Nat) : Option Int :=
  match jsParseInt s with
  | some n => if n = 0 then none else some n
  | none => none

/-- One iteration of the tag switch of parseTrackEntry. Each known tag keeps
the record unchanged on a value variant its dispatch prefix cannot produce
(those branches are unreachable; the TypeScript as-casts never observe them). -/
def applyField (tag : List Nat) (v : JsValue) (t : SeratoDatabaseTrack) :
    SeratoDatabaseTrack :=
  if tag = [112, 102, 105, 108] then  -- pfil
    match v with | .vstr s => { t with filePath := some s } | _ => t
  else if tag = [116, 115, 110, 103] then  -- tsng
    match v with | .vstr s => { t with title := some s } | _ => t
  else if tag = [116, 97, 114, 116] then  -- tart
    match v with | .vstr s => { t with artist := some s } | _ => t
  else if tag = [116, 97, 108, 98] then  -- talb
    match v with | .vstr s => { t with album := some s } | _ => t
  else if tag = [116, 103, 101, 110] then  -- tgen
    match v with | .vstr s => { t with genre := some s } | _ => t
  else if tag = [116, 107, 101, 121] then  -- tkey
    match v with | .vstr s => { t with key := some s } | _ => t
  else if tag = [116, 98, 112, 109] then  -- tbpm
    match v with | .vstr s => { t with bpm := floatOrNone s } | _ => t
  else if tag = [116, 108, 101, 110] then  -- tlen
    match v with | .vstr s => { t with length := floatOrNone s } | _ => t
  else if tag = [116, 98, 105, 116] then  -- tbit
    match v with | .vstr s => { t with bitrate := intOrNone s } | _ => t
  else if tag = [116, 115, 109, 112] then  -- tsmp
    match v with | .vstr s => { t with sampleRate := intOrNone s } | _ => t
  else if tag = [116, 116, 121, 112] then  -- ttyp
    match v with | .vstr s => { t with fileType := some s } | _ => t
  else if tag = [98, 98, 103, 108] then  -- bbgl
    match v with | .vbool b => { t with beatgridLocked := some b } | _ => t
  else if tag = [98, 109, 105, 115] then  -- bmis
    match v with | .vbool b => { t with missing := some b } | _ => t
  else if tag = [117, 97, 100, 100] then  -- uadd
    match v with
    | .vnum n => if n > 0 then { t with dateAdded := some (n * 1000) } else t
    | _ => t
  else if tag = [116, 99, 111, 109] then  -- tcom
    match v with | .vstr s => { t with comment := some s } | _ => t
  else if tag = [116, 103, 114, 112] then  -- tgrp
    match v with | .vstr s => { t with grouping := some s } | _ => t
  else if tag = [116, 99, 109, 112] then  -- tcmp
    match v with | .vstr s => { t with composer := some s } | _ => t
  else if tag = [116, 108, 98, 108] then  -- tlbl
    match v with | .vstr s => { t with label := some s } | _ => t
  else if tag = [116, 116, 121, 114] then  -- ttyr
    match v with | .vstr s => { t with year := intOrNone s } | _ => t
  else t

/-- The while loop of parseTrackEntry. A null field value is skipped before
the tag switch. -/
def fieldsLoop (data : List Nat) (offset : Nat) (t : SeratoDatabaseTrack) :
    SeratoDatabaseTrack :=
  if h : offset + 8 ≤ data.length then
    let tag := asciiTag data offset
    let length := readU32 data (offset + 4)
    if h2 : offset + 8 + length ≤ data.length then
      let fieldData := bufSlice data (offset + 8) length
      let value := parseFieldValue tag fieldData
      let t2 := if value = .vnull then t else applyField tag value t
      fieldsLoop data (offset + 8 + length) t2
    else t
  else t
termination_by data.length - offset
decreasing_by omega

/-- Truthiness of the accumulated filePath: present and non-empty. -/
def truthyStr : Option (List Nat) → Bool
  | some u => u ≠ []
  | none => false

/-- Function parseTrackEntry: records whose filePath stayed falsy are
dropped (null). -/
def parseTrackEntry (data : List Nat) : Option SeratoDatabaseTrack :=
  let t := fieldsLoop data 0 {}
  if truthyStr t.filePath then some t else none

/-- Outer while loop of parseDatabaseData. -/
def dbLoop (data : List Nat) (offset : Nat)
    (tracks : List SeratoDatabaseTrack) : List SeratoDatabaseTrack :=
  if h : offset + 8 ≤ data.length then
    let tag := asciiTag data offset
    let length := readU32 data (offset + 4)
    if h2 : offset + 8 + length ≤ data.length then
      let tracks2 :=
        if tag = Crate.otrkTag then
          match parseTrackEntry (bufSlice data (offset + 8) length) with
          | some t => tracks ++ [t]
          | none => tracks
        else tracks
      dbLoop data (offset + 8 + length) tracks2
    else tracks
  else tracks
termination_by data.length - offset
decreasing_by omega

/-- Function parseDatabaseData: whole-buffer walk from offset 0. -/
def parseDatabaseData (data : List Nat) : List SeratoDatabaseTrack :=
  dbLoop data 0 []

/-- The sequence of (tag, payload) frames the parseTrackEntry loop visits,
mirroring the loop bounds of fieldsLoop. -/
def dbFields (data : List Nat) (offset : Nat) : List (List Nat × List Nat) :=
  if h : offset + 8 ≤ data.length then
    let tag := asciiTag data offset
    let length := readU32 data (offset + 4)
    if h2 : offset + 8 + length ≤ data.length then
      (tag, bufSlice data (offset + 8) length) ::
        dbFields data (offset + 8 + length)
    else []
  else []
termination_by data.length - offset
decreasing_by omega

/-- The otrk payload slices the parseDatabaseData loop hands to
parseTrackEntry, mirroring the loop bounds of dbLoop. -/
def otrkPayloads (data : List Nat) (offset : Nat) : List (List Nat) :=
  if h : offset + 8 ≤ data.length then
    let tag := asciiTag data offset
    let length := readU32 data (offset + 4)
    if h2 : offset + 8 + length ≤ data.length then
      if tag = Crate.otrkTag then
        bufSlice data (offset + 8) length :: otrkPayloads data (offset + 8 + length)
      else otrkPayloads data (offset + 8 + length)
    else []
  else []
termination_by data.length - offset
decreasing_by all_goals omega

end Db

/-! ## History decoder (src/historyParser.ts)

The source turns each 4-byte tag word into a 4-character string with
getStringFromUInt32 and compares against fixed string constants; that map is
a bijection from 32-bit words, so tags are modelled directly as the word.
parseChunk and parseChunkArray recurse into container payloads; the
well-founded embedding threads a fuel argument consumed once per nesting
level. The entry points pass fuel equal to the buffer length plus one, which
exceeds the greatest possible nesting depth (every nested container adds at
least eight header bytes, and a header past the end of the buffer makes the
range-checked read fail exactly as fuel exhaustion does). -/

namespace History

/-- Session container tag oses. -/
def OSES : Nat := 0x6f736573

/-- Entry container tag oent. -/
def OENT : Nat := 0x6f656e74

/-- Track container tag otrk. -/
def OTRK : Nat := 0x6f74726b

/-- Attribute data container tag adat. -/
def ADAT : Nat := 0x61646174

/-- Index field tag. -/
def INDEX : Nat := 1

/-- BPM field tag. -/
def BPM : Nat := 15

/-- Start time field tag. -/
def START_TIME : Nat := 0x1c

/-- Deck field tag. -/
def DECK : Nat := 0x1f

/-- Played field tag. -/
def PLAYED : Nat := 0x32

/-- Play time field tag. -/
def PLAY_TIME : Nat := 0x2d

/-- Title field tag. -/
def TITLE : Nat := 6

/-- Artist field tag. -/
def ARTIST : Nat := 7

/-- File path field tag. -/
def FILE_PATH : Nat := 2

/-- Session date field tag. -/
def SESSION_DATE : Nat := 0x29

mutual

/-- Payload of a parsed chunk: the TypeScript union
string | number | Date | Chunk[] (a Date is kept as epoch milliseconds). -/
inductive HChunkData : Type where
  | str (units : List Nat)
  | num (n : Nat)
  | date (ms : Nat)
  | arr (chunks : List HChunk)

/-- One parsed chunk: tag word, declared length, payload. -/
inductive HChunk : Type where
  | mk (tag : Nat) (len : Nat) (data : HChunkData)

end

/-- Tag word of a chunk. -/
def HChunk.tag : HChunk → Nat
  | .mk t _ _ => t

/-- Declared length of a chunk. -/
def HChunk.len : HChunk → Nat
  | .mk _ l _ => l

/-- Payload of a chunk. -/
def HChunk.data : HChunk → HChunkData
  | .mk _ _ d => d

/-- Latin-1 slice with NUL characters removed: the default case of the
parseChunk tag switch (Buffer toString clamps the range silently). -/
def latin1Stripped (buf : List Nat) (start stop : Nat) : List Nat :=
  (bufSlice buf start (stop - start)).filter (· ≠ 0)

mutual

/-- Function parseChunk: read tag and big-endian length, then interpret the
payload by tag. The returned cursor of the source, index + length + 8, is
reconstructed by the caller from the stored length. The fuel argument is
consumed once per recursive call so that the mutual recursion is structural;
it only gates the descent into a nested container walk. -/
def parseChunk (fuel : Nat) (buf : List Nat) (index : Nat) : Option HChunk :=
  match readU32? buf index with
  | none => none
  | some tag =>
    match readU32? buf (index + 4) with
    | none => none
    | some length =>
      if tag = OSES ∨ tag = OENT ∨ tag = OTRK ∨ tag = ADAT then
        match fuel with
        | 0 => none
        | fuel + 1 =>
          match parseChunkArray fuel buf (index + 8) (index + 8 + length) with
          | none => none
          | some subs => some (.mk tag length (.arr subs))
      else if tag = INDEX ∨ tag = BPM then
          match readU32? buf (index + 8) with
          | none => none
          | some n => some (.mk tag length (.num n))
        else if tag = START_TIME then
          match readU32? buf (index + 8) with
          | none => none
          | some seconds => some (.mk tag length (.date (seconds * 1000)))
        else if tag = DECK then
          match readU32? buf (index + 8) with
          | none => none
          | some n => some (.mk tag length (.num n))
        else if tag = PLAYED then
          match readU8? buf (index + 8) with
          | none => none
          | some n => some (.mk tag length (.num n))
        else if tag = PLAY_TIME then
          match readU32? buf (index + 8) with
          | none => none
          | some seconds => some (.mk tag length (.date (seconds * 1000)))
        else
          some (.mk tag length (.str (latin1Stripped buf (index + 8) (index + 8 + length))))

/-- Function parseChunkArray: the cursor loop from start to stop, appending
each parsed chunk; an exception from parseChunk aborts the whole walk. One
unit of fuel is consumed per loop iteration. -/
def parseChunkArray (fuel : Nat) (buf : List Nat) (start stop : Nat) :
    Option (List HChunk) :=
  if start < stop then
    match fuel with
    | 0 => none
    | fuel + 1 =>
      match parseChunk fuel buf start with
      | none => none
      | some c =>
        match parseChunkArray fuel buf (start + c.len + 8) stop with
        | none => none
        | some rest => some (c :: rest)
  else some []

end

/-- Top-level chunk walk over a whole history buffer. The fuel bound exceeds
what any buffer can consume: every loop iteration either reads a well-formed
8-byte header lying inside the buffer (headers of distinct iterations on one
control path occupy disjoint byte ranges, so at most an eighth of the buffer
length many) or fails its range-checked read and stops, and every container
descent is paid for by its own 8 header bytes; the total fuel used on any
path is therefore well below the buffer length plus nine, and exhaustion is
unreachable from these entry points. -/
def parseHistoryChunks (buf : List Nat) : Option (List HChunk) :=
  parseChunkArray (buf.length + 9) buf 0 buf.length

/-- Coerce chunk data to a string as the TypeScript as-cast does where the
tag dispatch guarantees a string; other variants are unreachable there and
leave the previous value in place. -/
def asStr (d : HChunkData) : Option (List Nat) :=
  match d with
  | .str u => some u
  | _ => none

/-- Coerce chunk data to a number; see asStr. -/
def asNum (d : HChunkData) : Option Nat :=
  match d with
  | .num n => some n
  | _ => none

/-- Coerce chunk data to a Date (epoch milliseconds); see asStr. -/
def asDate (d : HChunkData) : Option Nat :=
  match d with
  | .date ms => some ms
  | _ => none

/-- Song record pushed by getSessionSongs. -/
structure SeratoHistorySong : Type where
  title : List Nat
  artist : List Nat
  bpm : Option Nat
  filePath : List Nat
  startTime : Option Nat
  playTime : Option Nat
  played : Bool
  playing : Bool
  deck : Nat
deriving DecidableEq

/-- Accumulator of the per-entry field loop of getSessionSongs. -/
structure SongAcc : Type where
  title : List Nat := []
  artist : List Nat := []
  bpm : Option Nat := none
  filePath : List Nat := []
  startTime : Option Nat := none
  playTime : Option Nat := none
  played : Option Nat := none
  deck : Nat := 0

/-- One iteration of the subchunk switch inside getSessionSongs. -/
def songStep (acc : SongAcc) (sub : HChunk) : SongAcc :=
  if sub.tag = TITLE then { acc with title := (asStr sub.data).getD acc.title }
  else if sub.tag = ARTIST then
    { acc with artist := (asStr sub.data).getD acc.artist }
  else if sub.tag = BPM then
    { acc with bpm := (asNum sub.data).map some |>.getD acc.bpm }
  else if sub.tag = FILE_PATH then
    { acc with filePath := (asStr sub.data).getD acc.filePath }
  else if sub.tag = START_TIME then
    { acc with startTime := (asDate sub.data).map some |>.getD acc.startTime }
  else if sub.tag = PLAYED then
    { acc with played := (asNum sub.data).map some |>.getD acc.played }
  else if sub.tag = DECK then
    { acc with deck := (asNum sub.data).getD acc.deck }
  else if sub.tag = PLAY_TIME then
    { acc with playTime := (asDate sub.data).map some |>.getD acc.playTime }
  else acc

/-- Truthiness of the played count used by getSessionSongs. -/
def truthyNum : Option Nat → Bool
  | some n => n ≠ 0
  | none => false

/-- The song record getSessionSongs pushes for one oent entry. -/
def buildSong (subs : List HChunk) : SeratoHistorySong :=
  let acc := subs.foldl songStep {}
  { title := acc.title
    artist := acc.artist
    bpm := acc.bpm
    filePath := acc.filePath
    startTime := acc.startTime
    playTime := acc.playTime
    played := truthyNum acc.played
    playing :=
      if truthyNum acc.played then acc.startTime.isSome && acc.playTime.isNone
      else false
    deck := acc.deck }

/-- The song contributed by one top-level chunk of a session file: an oent
container whose first child is an adat container. -/
def songOfChunk (c : HChunk) : Option SeratoHistorySong :=
  if c.tag = OENT then
    match c.data with
    | .arr (c0 :: _) =>
      if c0.tag = ADAT then
        match c0.data with
        | .arr subs => some (buildSong subs)
        | _ => none
      else none
    | _ => none
  else none

/-- Function getSessionSongs on an already-read session buffer. -/
def getSessionSongs (buffer : List Nat) : Option (List SeratoHistorySong) :=
  (parseHistoryChunks buffer).map (List.filterMap songOfChunk)

/-- The (date, index) pair contributed by one top-level chunk of the history
database: an oses container whose first child is an adat container, provided
the date is truthy and the index non-negative. The source assigns date and
index in two independent if-statements per subchunk; the tags differ, so the
sequential formulation is the same function. -/
def sessionOfChunk (c : HChunk) : Option (List Nat × Int) :=
  if c.tag = OSES then
    match c.data with
    | .arr (c0 :: _) =>
      if c0.tag = ADAT then
        match c0.data with
        | .arr subs =>
          let st := subs.foldl
            (fun (p : List Nat × Int) sub =>
              let p1 :=
                if sub.tag = INDEX then
                  (p.1, ((asNum sub.data).map Int.ofNat).getD p.2)
                else p
              if sub.tag = SESSION_DATE then ((asStr sub.data).getD p1.1, p1.2)
              else p1)
            ([], -1)
          if st.1 ≠ [] ∧ st.2 ≥ 0 then some st else none
        | _ => none
      else none
    | _ => none
  else none

/-- JavaScript Map set: replace the value of an existing key in place,
otherwise append a new entry (insertion order preserved). -/
def jsMapSet (m : List (List Nat × Int)) (k : List Nat) (v : Int) :
    List (List Nat × Int) :=
  if k ∈ m.map Prod.fst then
    m.map fun p => if p.1 = k then (k, v) else p
  else m ++ [(k, v)]

/-- The session map getSessions builds from the top-level chunks. -/
def buildSessions (chunks : List HChunk) : List (List Nat × Int) :=
  chunks.foldl
    (fun m c =>
      match sessionOfChunk c with
      | some (d, i) => jsMapSet m d i
      | none => m)
    []

/-- Function getSessions on an already-read history database buffer. -/
def getSessions (buffer : List Nat) : Option (List (List Nat × Int)) :=
  (parseHistoryChunks buffer).map buildSessions

/-- The list of valid (date, index) pairs in buffer order, used to state
what the session map contains. -/
def sessionPairs (chunks : List HChunk) : List (List Nat × Int) :=
  chunks.filterMap sessionOfChunk

end History

/-! ## C1: truncated tag/length pairs -/

/-- A history parseChunk call whose 8-byte header would cross the end of the
buffer fails: one of the two range-checked header reads throws. -/
theorem parseChunk_header_truncated (fuel : Nat) (buf : List Nat) (index : Nat)
    (h : buf.length < index + 8) : History.parseChunk fuel buf index = none := by
  unfold History.parseChunk
  rcases h4 : readU32? buf index with _ | tag
  · rfl
  · have h8 : readU32? buf (index + 4) = none := by
      unfold readU32?
      rw [if_neg (by omega)]
    rw [h8]

/-- C1 (amended): when fewer than 8 bytes remain before the walk limit,
the crate walk and the database walk return their accumulated results,
silently discarding the truncated tail; the history walk does so only when
exactly zero bytes remain — told to continue (cursor strictly below the end)
over a truncated trailing header it instead propagates the range error of the
header read. -/
theorem chunk_walks_truncated_tail :
    (∀ data offset version acc, data.length < offset + 8 →
        Crate.crateLoop data offset version acc = (version, acc)) ∧
      (∀ data offset acc, data.length < offset + 8 →
        Db.dbLoop data offset acc = acc) ∧
      (∀ fuel buf start stop, buf.length < start + 8 →
        History.parseChunkArray fuel buf start stop =
          if start < stop then none else some []) := by
  refine ⟨?_, ?_, ?_⟩
  · intro data offset version acc h
    rw [Crate.crateLoop, dif_neg (by omega)]
  · intro data offset acc h
    rw [Db.dbLoop, dif_neg (by omega)]
  · intro fuel buf start stop h
    rw [History.parseChunkArray.eq_def]
    by_cases hlt : start < stop
    · rw [if_pos hlt, if_pos hlt]
      cases fuel with
      | zero => rfl
      | succ f => simp only [parseChunk_header_truncated f buf start h]
    · rw [if_neg hlt, if_neg hlt]

/-- C1 witness: the three components of the truncation theorem applied to a
concrete 4-byte buffer of trailing garbage. -/
theorem chunk_walks_truncated_tail_witness :
    Crate.crateLoop [0, 0, 0, 0] 0 none [] = (none, []) ∧
      Db.dbLoop [0, 0, 0, 0] 0 [] = [] ∧
      History.parseChunkArray 5 [0, 0, 0, 0] 0 4 =
        if 0 < 4 then none else some [] :=
  ⟨chunk_walks_truncated_tail.1 [0, 0, 0, 0] 0 none [] (by decide),
    chunk_walks_truncated_tail.2.1 [0, 0, 0, 0] 0 [] (by decide),
    chunk_walks_truncated_tail.2.2 5 [0, 0, 0, 0] 0 4 (by decide)⟩

/-- C1 counterexample: the claim says all three chunk walks discard a
truncated trailing tag/length pair silently and raise no error, but the
history walk on a 4-byte buffer propagates the range error thrown by the
length read (modelled as none), instead of yielding its chunks so far
(some of the empty list). -/
theorem history_truncated_raises_counterexample :
    History.parseHistoryChunks [0, 0, 0, 0] = none := rfl

/-! ## C2: the derived playing flag -/

/-- The playing field of any record built by buildSong coincides with the
conjunction: played is true, startTime present, playTime absent. -/
theorem buildSong_playing (subs : List History.HChunk) :
    (History.buildSong subs).playing =
      ((History.buildSong subs).played &&
        ((subs.foldl History.songStep {}).startTime.isSome &&
          (subs.foldl History.songStep {}).playTime.isNone)) := by
  unfold History.buildSong
  cases h : History.truthyNum ((subs.foldl History.songStep {}).played) <;>
    simp [h]

/-- A song produced by songOfChunk is a buildSong record. -/
theorem songOfChunk_eq_buildSong (c : History.HChunk)
    (s : History.SeratoHistorySong) (h : History.songOfChunk c = some s) :
    ∃ subs, s = History.buildSong subs := by
  unfold History.songOfChunk at h
  repeat' split at h
  all_goals first
    | exact Option.noConfusion h
    | exact ⟨_, (Option.some_inj.mp h).symm⟩

/-- C2: every song record the history decoder produces has playing true
exactly when played is truthy, startTime is present and playTime is absent. -/
theorem history_playing_derived (buffer : List Nat)
    (songs : List History.SeratoHistorySong)
    (h : History.getSessionSongs buffer = some songs) :
    ∀ s ∈ songs,
      s.playing = (s.played && (s.startTime.isSome && s.playTime.isNone)) := by
  intro s hs
  unfold History.getSessionSongs at h
  rcases hp : History.parseHistoryChunks buffer with _ | chunks
  · rw [hp] at h
    exact Option.noConfusion h
  · rw [hp] at h
    simp only [Option.map_some'] at h
    rw [Option.some_inj] at h
    rw [← h] at hs
    obtain ⟨c, _, hsc⟩ := List.mem_filterMap.mp hs
    obtain ⟨subs, rfl⟩ := songOfChunk_eq_buildSong c s hsc
    have := buildSong_playing subs
    unfold History.buildSong at this ⊢
    exact this

/-! ## C10: session map semantics -/

namespace History

/-- Lookup in the association-list model of the JavaScript Map (first match,
which is the only match once keys are unique). -/
def jsGet : List (List Nat × Int) → List Nat → Option Int
  | [], _ => none
  | p :: t, k => if p.1 = k then some p.2 else jsGet t k

/-- The value attached to the last pair carrying a given key, in list order. -/
def lastPair : List (List Nat × Int) → List Nat → Option Int
  | [], _ => none
  | p :: t, k =>
    match lastPair t k with
    | some v => some v
    | none => if p.1 = k then some p.2 else none

theorem jsGet_map_replace (t : List (List Nat × Int)) (k : List Nat) (v : Int)
    (k2 : List Nat) (hne : k2 ≠ k) :
    jsGet (t.map fun p => if p.1 = k then (k, v) else p) k2 = jsGet t k2 := by
  induction t with
  | nil => rfl
  | cons p t ih =>
    by_cases hp : p.1 = k
    · have h1 : ¬ (k = k2) := fun hh => hne hh.symm
      have h2 : ¬ (p.1 = k2) := hp ▸ h1
      simp only [List.map_cons, if_pos hp, jsGet, if_neg h1, if_neg h2]
      exact ih
    · simp only [List.map_cons, if_neg hp, jsGet]
      by_cases hp2 : p.1 = k2
      · rw [if_pos hp2, if_pos hp2]
      · rw [if_neg hp2, if_neg hp2]
        exact ih

theorem jsGet_map_replace_self (t : List (List Nat × Int)) (k : List Nat)
    (v : Int) (hmem : k ∈ t.map Prod.fst) :
    jsGet (t.map fun p => if p.1 = k then (k, v) else p) k = some v := by
  induction t with
  | nil => cases hmem
  | cons p t ih =>
    by_cases hp : p.1 = k
    · simp only [List.map_cons, if_pos hp, jsGet, if_pos rfl]
      rw [if_pos trivial]
    · simp only [List.map_cons, if_neg hp, jsGet, if_neg hp]
      rcases List.mem_cons.mp hmem with h1 | h2
      · exact absurd h1.symm hp
      · exact ih h2

theorem jsGet_append_new (m : List (List Nat × Int)) (k : List Nat) (v : Int)
    (k2 : List Nat) (hnot : ¬ k ∈ m.map Prod.fst) :
    jsGet (m ++ [(k, v)]) k2 = if k2 = k then some v else jsGet m k2 := by
  induction m with
  | nil =>
    simp only [List.nil_append, jsGet]
    by_cases hk : k = k2
    · rw [if_pos hk, if_pos hk.symm]
    · rw [if_neg hk, if_neg (fun hh => hk hh.symm)]
  | cons p t ih =>
    have hp : p.1 ≠ k := fun hh => hnot (by simp [hh.symm])
    have hnt : ¬ k ∈ t.map Prod.fst := fun hh => hnot (by simp [hh])
    simp only [List.cons_append, jsGet]
    by_cases hp2 : p.1 = k2
    · rw [if_pos hp2, if_neg (fun hh : k2 = k => hp (hp2.trans hh)), if_pos hp2]
    · rw [if_neg hp2, if_neg hp2]
      exact ih hnt

/-- Setting a key makes lookups behave like a function update. -/
theorem jsGet_set (m : List (List Nat × Int)) (k : List Nat) (v : Int)
    (k2 : List Nat) :
    jsGet (jsMapSet m k v) k2 = if k2 = k then some v else jsGet m k2 := by
  unfold jsMapSet
  by_cases hc : k ∈ m.map Prod.fst
  · rw [if_pos hc]
    by_cases hk : k2 = k
    · rw [if_pos hk, hk]
      exact jsGet_map_replace_self m k v hc
    · rw [if_neg hk]
      exact jsGet_map_replace m k v k2 hk
  · rw [if_neg hc]
    exact jsGet_append_new m k v k2 hc

/-- The keys of the map after a set: unchanged when the key was present,
extended by the key otherwise. -/
theorem jsMapSet_keys (m : List (List Nat × Int)) (k : List Nat) (v : Int) :
    (jsMapSet m k v).map Prod.fst =
      if k ∈ m.map Prod.fst then m.map Prod.fst else m.map Prod.fst ++ [k] := by
  unfold jsMapSet
  by_cases hc : k ∈ m.map Prod.fst
  · rw [if_pos hc, if_pos hc, List.map_map]
    refine List.map_congr_left fun p _ => ?_
    by_cases hp : p.1 = k
    · simp [Function.comp, hp]
    · simp [Function.comp, hp]
  · rw [if_neg hc, if_neg hc, List.map_append]
    simp

/-- Key uniqueness is preserved by a set. -/
theorem jsMapSet_nodup (m : List (List Nat × Int)) (k : List Nat) (v : Int)
    (h : (m.map Prod.fst).Nodup) : ((jsMapSet m k v).map Prod.fst).Nodup := by
  rw [jsMapSet_keys]
  by_cases hk : k ∈ m.map Prod.fst
  · rw [if_pos hk]; exact h
  · rw [if_neg hk]
    exact List.Nodup.append h (List.nodup_singleton k) (by simpa using hk)

/-- The key set of the map after a set, as a finite set. -/
theorem jsMapSet_keys_toFinset (m : List (List Nat × Int)) (k : List Nat)
    (v : Int) :
    ((jsMapSet m k v).map Prod.fst).toFinset =
      insert k (m.map Prod.fst).toFinset := by
  rw [jsMapSet_keys]
  by_cases hk : k ∈ m.map Prod.fst
  · rw [if_pos hk]
    exact (Finset.insert_eq_self.mpr (List.mem_toFinset.mpr hk)).symm
  · rw [if_neg hk]
    ext x
    simp only [List.toFinset_append, Finset.mem_union, List.mem_toFinset,
      Finset.mem_insert, List.mem_singleton]
    tauto

/-- Folding jsMapSet over a pair list, starting from any map. -/
def setFold (m : List (List Nat × Int)) (ps : List (List Nat × Int)) :
    List (List Nat × Int) :=
  ps.foldl (fun acc p => jsMapSet acc p.1 p.2) m

theorem buildSessions_eq_setFold (chunks : List HChunk) :
    buildSessions chunks = setFold [] (sessionPairs chunks) := by
  suffices hgen : ∀ m, chunks.foldl
      (fun acc c =>
        match sessionOfChunk c with
        | some (d, i) => jsMapSet acc d i
        | none => acc) m = setFold m (sessionPairs chunks) by
    exact hgen []
  induction chunks with
  | nil => intro m; rfl
  | cons c t ih =>
    intro m
    rcases hs : sessionOfChunk c with _ | ⟨d, i⟩ <;>
      simp only [buildSessions, sessionPairs, setFold, List.foldl_cons,
        List.filterMap_cons, hs]
    · exact ih m
    · exact ih (jsMapSet m d i)

theorem jsGet_setFold (ps : List (List Nat × Int))
    (m : List (List Nat × Int)) (d : List Nat) :
    jsGet (setFold m ps) d =
      match lastPair ps d with
      | some v => some v
      | none => jsGet m d := by
  induction ps generalizing m with
  | nil => rfl
  | cons p t ih =>
    simp only [setFold, List.foldl_cons, lastPair]
    rw [show t.foldl (fun acc q => jsMapSet acc q.1 q.2) (jsMapSet m p.1 p.2) =
      setFold (jsMapSet m p.1 p.2) t from rfl, ih]
    cases hl : lastPair t d with
    | none =>
      simp only [hl]
      rw [jsGet_set]
      by_cases hd : d = p.1
      · rw [if_pos hd, if_pos hd.symm]
      · rw [if_neg hd, if_neg (fun hh => hd hh.symm)]
    | some v => simp only [hl]

theorem setFold_nodup (ps : List (List Nat × Int))
    (m : List (List Nat × Int)) (h : (m.map Prod.fst).Nodup) :
    ((setFold m ps).map Prod.fst).Nodup := by
  induction ps generalizing m with
  | nil => exact h
  | cons p t ih => exact ih (jsMapSet m p.1 p.2) (jsMapSet_nodup m p.1 p.2 h)

theorem setFold_keys_toFinset (ps : List (List Nat × Int))
    (m : List (List Nat × Int)) :
    ((setFold m ps).map Prod.fst).toFinset =
      (m.map Prod.fst).toFinset ∪ (ps.map Prod.fst).toFinset := by
  induction ps generalizing m with
  | nil => simp [setFold]
  | cons p t ih =>
    simp only [setFold, List.foldl_cons, List.map_cons, List.toFinset_cons]
    rw [show t.foldl (fun acc q => jsMapSet acc q.1 q.2) (jsMapSet m p.1 p.2) =
      setFold (jsMapSet m p.1 p.2) t from rfl, ih, jsMapSet_keys_toFinset]
    ext x
    simp only [Finset.mem_union, Finset.mem_insert, List.mem_toFinset]
    tauto

theorem mem_jsGet (m : List (List Nat × Int)) (p : List Nat × Int)
    (hnd : (m.map Prod.fst).Nodup) (hmem : p ∈ m) : jsGet m p.1 = some p.2 := by
  induction m with
  | nil => cases hmem
  | cons q t ih =>
    rcases List.mem_cons.mp hmem with h1 | h2
    · rw [h1]
      simp [jsGet]
    · have hq : q.1 ≠ p.1 := by
        intro hh
        have : p.1 ∈ t.map Prod.fst := List.mem_map.mpr ⟨p, h2, rfl⟩
        exact (List.nodup_cons.mp hnd).1 (hh ▸ this)
      simp only [jsGet, if_neg hq]
      exact ih (List.nodup_cons.mp hnd).2 h2

end History

/-- Concrete history database buffer: two oses sessions carrying the same
date string (bytes 97 98) with indices 1 and 2. -/
def historyDbBuf : List Nat :=
  [111, 115, 101, 115, 0, 0, 0, 30,
     97, 100, 97, 116, 0, 0, 0, 22,
       0, 0, 0, 1, 0, 0, 0, 4, 0, 0, 0, 1,
       0, 0, 0, 41, 0, 0, 0, 2, 97, 98,
   111, 115, 101, 115, 0, 0, 0, 30,
     97, 100, 97, 116, 0, 0, 0, 22,
       0, 0, 0, 1, 0, 0, 0, 4, 0, 0, 0, 2,
       0, 0, 0, 41, 0, 0, 0, 2, 97, 98]

/-- The chunk list the walker yields on historyDbBuf. -/
def historyDbChunks : List History.HChunk :=
  [.mk History.OSES 30 (.arr [.mk History.ADAT 22 (.arr
      [.mk History.INDEX 4 (.num 1),
        .mk History.SESSION_DATE 2 (.str [97, 98])])]),
    .mk History.OSES 30 (.arr [.mk History.ADAT 22 (.arr
      [.mk History.INDEX 4 (.num 2),
        .mk History.SESSION_DATE 2 (.str [97, 98])])])]

/-- C10: the session map getSessions builds holds one entry per distinct
valid date; its value is the index of the last session with that date in
buffer order, and its size is the number of distinct dates among sessions
carrying both a truthy date and an index. -/
theorem sessions_map_dedup (buffer : List Nat) (chunks : List History.HChunk)
    (h : History.parseHistoryChunks buffer = some chunks) :
    History.getSessions buffer = some (History.buildSessions chunks) ∧
      ((History.buildSessions chunks).map Prod.fst).Nodup ∧
      (∀ p ∈ History.buildSessions chunks,
        History.lastPair (History.sessionPairs chunks) p.1 = some p.2) ∧
      (History.buildSessions chunks).length =
        ((History.sessionPairs chunks).map Prod.fst).toFinset.card := by
  have hnd : ((History.buildSessions chunks).map Prod.fst).Nodup := by
    rw [History.buildSessions_eq_setFold]
    exact History.setFold_nodup _ [] (by simp)
  refine ⟨?_, hnd, ?_, ?_⟩
  · unfold History.getSessions
    rw [h]
    rfl
  · intro p hp
    have hg := History.mem_jsGet _ p hnd hp
    rw [History.buildSessions_eq_setFold, History.jsGet_setFold] at hg
    cases hl : History.lastPair (History.sessionPairs chunks) p.1 with
    | none =>
      rw [hl] at hg
      simp [History.jsGet] at hg
    | some v =>
      rw [hl] at hg
      simpa using hg
  · rw [History.buildSessions_eq_setFold]
    have hnd2 := History.setFold_nodup (History.sessionPairs chunks) []
      (by simp)
    have hlen : (History.setFold [] (History.sessionPairs chunks)).length =
        ((History.setFold [] (History.sessionPairs chunks)).map
          Prod.fst).length := by
      simp
    rw [hlen, ← List.toFinset_card_of_nodup hnd2,
      History.setFold_keys_toFinset]
    simp

/-- C10 witness: the deduplication theorem applied to a concrete buffer with
two sessions for the same date; the map keeps one entry, whose index 2 comes
from the later session. -/
theorem sessions_map_dedup_witness :
    History.getSessions historyDbBuf =
        some (History.buildSessions historyDbChunks) ∧
      ((History.buildSessions historyDbChunks).map Prod.fst).Nodup ∧
      History.lastPair (History.sessionPairs historyDbChunks) [97, 98] =
        some 2 ∧
      (History.buildSessions historyDbChunks).length =
        ((History.sessionPairs historyDbChunks).map Prod.fst).toFinset.card := by
  obtain ⟨h1, h2, h3, h4⟩ := sessions_map_dedup historyDbBuf historyDbChunks rfl
  exact ⟨h1, h2, h3 ([97, 98], 2) (by decide), h4⟩

/-- Concrete session buffer: one oent entry whose adat carries a played flag
of 1 and a start time, but no play time. -/
def sessionSongBuf : List Nat :=
  [111, 101, 110, 116, 0, 0, 0, 29,
     97, 100, 97, 116, 0, 0, 0, 21,
       0, 0, 0, 50, 0, 0, 0, 1, 1,
       0, 0, 0, 28, 0, 0, 0, 4, 0, 0, 0, 10]

/-- The song record decoded from sessionSongBuf. -/
def sessionSong : History.SeratoHistorySong :=
  { title := [], artist := [], bpm := none, filePath := [],
    startTime := some 10000, playTime := none, played := true,
    playing := true, deck := 0 }

/-- C2 witness: the playing-derivation theorem applied to a concrete session
buffer holding one started, unfinished song. -/
theorem history_playing_derived_witness :
    sessionSong.playing =
      (sessionSong.played &&
        (sessionSong.startTime.isSome && sessionSong.playTime.isNone)) :=
  history_playing_derived sessionSongBuf [sessionSong] (by decide)
    sessionSong (by decide)

/-! ## C5 and C9: database record semantics -/

/-- The database walk equals a filterMap of parseTrackEntry over the otrk
payload slices it visits, appended to the accumulator. -/
theorem dbLoop_eq_filterMap (data : List Nat) (offset : Nat)
    (acc : List Db.SeratoDatabaseTrack) :
    Db.dbLoop data offset acc =
      acc ++ (Db.otrkPayloads data offset).filterMap Db.parseTrackEntry := by
  induction offset, acc using Db.dbLoop.induct data with
  | case1 offset acc h tag length h2 tracks2 ih =>
    unfold_let tag length tracks2 at ih
    rw [Db.dbLoop, dif_pos h, dif_pos h2, Db.otrkPayloads, dif_pos h,
      dif_pos h2]
    by_cases htag : asciiTag data offset = Crate.otrkTag
    · simp only [htag, if_true, eq_self_iff_true] at ih ⊢
      cases hpte : Db.parseTrackEntry
          (bufSlice data (offset + 8) (readU32 data (offset + 4))) with
      | none =>
        rw [hpte] at ih
        simp [hpte] at ih ⊢
        exact ih
      | some t =>
        rw [hpte] at ih
        simp [hpte] at ih ⊢
        exact ih
    · simp only [htag, if_false] at ih ⊢
      exact ih
  | case2 offset acc h length h2 =>
    rw [Db.dbLoop, dif_pos h, dif_neg h2, Db.otrkPayloads, dif_pos h,
      dif_neg h2]
    simp
  | case3 offset acc h =>
    rw [Db.dbLoop, dif_neg h, Db.otrkPayloads, dif_neg h]
    simp

/-- Any property of the accumulated track record preserved by every visited
field application is preserved by the whole parseTrackEntry loop. The null
check of the loop only skips applications, so preservation of applyField
itself suffices. -/
theorem fieldsLoop_invariant (data : List Nat)
    (P : Db.SeratoDatabaseTrack → Prop) (offset : Nat)
    (t : Db.SeratoDatabaseTrack)
    (hstep : ∀ f ∈ Db.dbFields data offset, ∀ t2, P t2 →
      P (Db.applyField f.1 (Db.parseFieldValue f.1 f.2) t2))
    (ht : P t) : P (Db.fieldsLoop data offset t) := by
  induction offset, t using Db.fieldsLoop.induct data with
  | case1 offset t h tag length h2 fieldData value t2 ih =>
    unfold_let tag length t2 value fieldData at ih
    rw [Db.fieldsLoop, dif_pos h, dif_pos h2]
    have hfields : Db.dbFields data offset =
        (asciiTag data offset,
          bufSlice data (offset + 8) (readU32 data (offset + 4))) ::
          Db.dbFields data (offset + 8 + readU32 data (offset + 4)) := by
      rw [Db.dbFields, dif_pos h, dif_pos h2]
    have hhead := hstep _ (by rw [hfields]; exact List.mem_cons_self _ _) t ht
    have htail : ∀ f ∈ Db.dbFields data
        (offset + 8 + readU32 data (offset + 4)), ∀ u, P u →
        P (Db.applyField f.1 (Db.parseFieldValue f.1 f.2) u) := by
      intro f hf
      exact hstep f (by rw [hfields]; exact List.mem_cons_of_mem _ hf)
    by_cases hv : Db.parseFieldValue (asciiTag data offset)
        (bufSlice data (offset + 8) (readU32 data (offset + 4))) = .vnull
    · simp only [hv, dite_true, if_true, if_pos, eq_self_iff_true] at ih ⊢
      exact ih htail ht
    · simp only [dif_neg hv, if_neg hv] at ih ⊢
      exact ih htail hhead
  | case2 offset t h length h2 =>
    rw [Db.fieldsLoop, dif_pos h, dif_neg h2]
    exact ht
  | case3 offset t h =>
    rw [Db.fieldsLoop, dif_neg h]
    exact ht

/-- A tag other than pfil leaves filePath untouched. -/
theorem applyField_filePath (tag : List Nat) (v : Db.JsValue)
    (t2 : Db.SeratoDatabaseTrack) (hne : tag ≠ [112, 102, 105, 108]) :
    (Db.applyField tag v t2).filePath = t2.filePath := by
  unfold Db.applyField
  rw [if_neg hne]
  cases v <;>
    simp [apply_ite Db.SeratoDatabaseTrack.filePath,
      apply_ite Db.SeratoDatabaseTrack.bpm,
      apply_ite Db.SeratoDatabaseTrack.length,
      apply_ite Db.SeratoDatabaseTrack.bitrate,
      apply_ite Db.SeratoDatabaseTrack.sampleRate,
      apply_ite Db.SeratoDatabaseTrack.year, ite_self]

/-- A tag other than tbpm leaves bpm untouched. -/
theorem applyField_bpm (tag : List Nat) (v : Db.JsValue)
    (t2 : Db.SeratoDatabaseTrack) (hne : tag ≠ [116, 98, 112, 109]) :
    (Db.applyField tag v t2).bpm = t2.bpm := by
  unfold Db.applyField
  rw [if_neg hne]
  cases v <;>
    simp [apply_ite Db.SeratoDatabaseTrack.filePath,
      apply_ite Db.SeratoDatabaseTrack.bpm,
      apply_ite Db.SeratoDatabaseTrack.length,
      apply_ite Db.SeratoDatabaseTrack.bitrate,
      apply_ite Db.SeratoDatabaseTrack.sampleRate,
      apply_ite Db.SeratoDatabaseTrack.year, ite_self]

/-- A tag other than tlen leaves the length field untouched. -/
theorem applyField_length (tag : List Nat) (v : Db.JsValue)
    (t2 : Db.SeratoDatabaseTrack) (hne : tag ≠ [116, 108, 101, 110]) :
    (Db.applyField tag v t2).length = t2.length := by
  unfold Db.applyField
  rw [if_neg hne]
  cases v <;>
    simp [apply_ite Db.SeratoDatabaseTrack.filePath,
      apply_ite Db.SeratoDatabaseTrack.bpm,
      apply_ite Db.SeratoDatabaseTrack.length,
      apply_ite Db.SeratoDatabaseTrack.bitrate,
      apply_ite Db.SeratoDatabaseTrack.sampleRate,
      apply_ite Db.SeratoDatabaseTrack.year, ite_self]

/-- A tag other than tbit leaves bitrate untouched. -/
theorem applyField_bitrate (tag : List Nat) (v : Db.JsValue)
    (t2 : Db.SeratoDatabaseTrack) (hne : tag ≠ [116, 98, 105, 116]) :
    (Db.applyField tag v t2).bitrate = t2.bitrate := by
  unfold Db.applyField
  rw [if_neg hne]
  cases v <;>
    simp [apply_ite Db.SeratoDatabaseTrack.filePath,
      apply_ite Db.SeratoDatabaseTrack.bpm,
      apply_ite Db.SeratoDatabaseTrack.length,
      apply_ite Db.SeratoDatabaseTrack.bitrate,
      apply_ite Db.SeratoDatabaseTrack.sampleRate,
      apply_ite Db.SeratoDatabaseTrack.year, ite_self]

/-- A tag other than tsmp leaves sampleRate untouched. -/
theorem applyField_sampleRate (tag : List Nat) (v : Db.JsValue)
    (t2 : Db.SeratoDatabaseTrack) (hne : tag ≠ [116, 115, 109, 112]) :
    (Db.applyField tag v t2).sampleRate = t2.sampleRate := by
  unfold Db.applyField
  rw [if_neg hne]
  cases v <;>
    simp [apply_ite Db.SeratoDatabaseTrack.filePath,
      apply_ite Db.SeratoDatabaseTrack.bpm,
      apply_ite Db.SeratoDatabaseTrack.length,
      apply_ite Db.SeratoDatabaseTrack.bitrate,
      apply_ite Db.SeratoDatabaseTrack.sampleRate,
      apply_ite Db.SeratoDatabaseTrack.year, ite_self]

/-- A tag other than ttyr leaves year untouched. -/
theorem applyField_year (tag : List Nat) (v : Db.JsValue)
    (t2 : Db.SeratoDatabaseTrack) (hne : tag ≠ [116, 116, 121, 114]) :
    (Db.applyField tag v t2).year = t2.year := by
  unfold Db.applyField
  rw [if_neg hne]
  cases v <;>
    simp [apply_ite Db.SeratoDatabaseTrack.filePath,
      apply_ite Db.SeratoDatabaseTrack.bpm,
      apply_ite Db.SeratoDatabaseTrack.length,
      apply_ite Db.SeratoDatabaseTrack.bitrate,
      apply_ite Db.SeratoDatabaseTrack.sampleRate,
      apply_ite Db.SeratoDatabaseTrack.year, ite_self]

/-- Evaluation of applyField at the tbpm tag. -/
theorem applyField_tbpm (v : Db.JsValue) (t2 : Db.SeratoDatabaseTrack) :
    Db.applyField [116, 98, 112, 109] v t2 =
      match v with
      | .vstr s => { t2 with bpm := Db.floatOrNone s }
      | _ => t2 := by
  simp [Db.applyField]

/-- Evaluation of applyField at the tlen tag. -/
theorem applyField_tlen (v : Db.JsValue) (t2 : Db.SeratoDatabaseTrack) :
    Db.applyField [116, 108, 101, 110] v t2 =
      match v with
      | .vstr s => { t2 with length := Db.floatOrNone s }
      | _ => t2 := by
  simp [Db.applyField]

/-- Evaluation of applyField at the tbit tag. -/
theorem applyField_tbit (v : Db.JsValue) (t2 : Db.SeratoDatabaseTrack) :
    Db.applyField [116, 98, 105, 116] v t2 =
      match v with
      | .vstr s => { t2 with bitrate := Db.intOrNone s }
      | _ => t2 := by
  simp [Db.applyField]

/-- Evaluation of applyField at the tsmp tag. -/
theorem applyField_tsmp (v : Db.JsValue) (t2 : Db.SeratoDatabaseTrack) :
    Db.applyField [116, 115, 109, 112] v t2 =
      match v with
      | .vstr s => { t2 with sampleRate := Db.intOrNone s }
      | _ => t2 := by
  simp [Db.applyField]

/-- Evaluation of applyField at the ttyr tag. -/
theorem applyField_ttyr (v : Db.JsValue) (t2 : Db.SeratoDatabaseTrack) :
    Db.applyField [116, 116, 121, 114] v t2 =
      match v with
      | .vstr s => { t2 with year := Db.intOrNone s }
      | _ => t2 := by
  simp [Db.applyField]

/-- Evaluation of parseFieldValue on a tag starting with the character t. -/
theorem parseFieldValue_text (tag : List Nat) (payload : List Nat)
    (h : tag.headD 0 = 116) :
    Db.parseFieldValue tag payload =
      if payload.length = 0 then .vnull
      else .vstr (readUtf16BE payload 0 payload.length) := by
  unfold Db.parseFieldValue
  by_cases hp : payload.length = 0
  · rw [if_pos hp, if_pos hp]
  · rw [if_neg hp, if_neg hp, h]
    rw [if_pos (Or.inl rfl)]

/-- C5: an otrk record that contains no pfil field contributes no track:
parseTrackEntry drops it, while the database walk still returns exactly the
tracks of the remaining records (a filterMap over all otrk payloads) and
never raises. -/
theorem db_record_without_pfil_dropped (data entry : List Nat)
    (hnp : ∀ f ∈ Db.dbFields entry 0, f.1 ≠ [112, 102, 105, 108]) :
    Db.parseTrackEntry entry = none ∧
      Db.parseDatabaseData data =
        (Db.otrkPayloads data 0).filterMap Db.parseTrackEntry := by
  constructor
  · have hnone : (Db.fieldsLoop entry 0 {}).filePath = none := by
      refine fieldsLoop_invariant entry (fun t => t.filePath = none) 0 {}
        ?_ rfl
      intro f hf t2 ht2
      rw [applyField_filePath f.1 _ t2 (hnp f hf)]
      exact ht2
    unfold Db.parseTrackEntry
    simp [hnone, Db.truthyStr]
  · unfold Db.parseDatabaseData
    simpa using dbLoop_eq_filterMap data 0 []

/-- Concrete track entry payload carrying only a title (tsng), no pfil. -/
def entryNoPfil : List Nat := [116, 115, 110, 103, 0, 0, 0, 2, 0, 65]

/-- C5 witness: the drop theorem applied to a concrete database buffer whose
single otrk record has a title field but no file path. -/
theorem db_record_without_pfil_dropped_witness :
    Db.parseTrackEntry entryNoPfil = none ∧
      Db.parseDatabaseData ([111, 116, 114, 107, 0, 0, 0, 10] ++ entryNoPfil) =
        (Db.otrkPayloads ([111, 116, 114, 107, 0, 0, 0, 10] ++ entryNoPfil)
          0).filterMap Db.parseTrackEntry := by
  refine db_record_without_pfil_dropped _ entryNoPfil ?_
  intro f hf
  have hlist : Db.dbFields entryNoPfil 0 = [([116, 115, 110, 103], [0, 65])] := by
    rw [Db.dbFields, dif_pos (by decide), dif_pos (by decide), Db.dbFields,
      dif_neg (by decide)]
    decide
  rw [hlist] at hf
  simp only [List.mem_singleton] at hf
  subst hf
  decide

/-- C9: in any track record the database decoder returns, a numeric text
field whose every occurrence parses to the number zero leaves the
corresponding record field absent rather than zero, independently for each
of tbpm, tlen, tbit, tsmp and ttyr: whichever of the five tags has all its
occurrences parse to zero has its own record field absent, whatever the
other numeric fields hold (the JavaScript or-undefined idiom coerces falsy
parse results to absent). -/
theorem db_zero_numeric_fields_absent (entry : List Nat)
    (t : Db.SeratoDatabaseTrack) (ht : Db.parseTrackEntry entry = some t) :
    ((∀ f ∈ Db.dbFields entry 0, f.1 = [116, 98, 112, 109] →
        (jsParseFloat (readUtf16BE f.2 0 f.2.length)).map JsNum.num = some 0) →
      t.bpm = none) ∧
    ((∀ f ∈ Db.dbFields entry 0, f.1 = [116, 108, 101, 110] →
        (jsParseFloat (readUtf16BE f.2 0 f.2.length)).map JsNum.num = some 0) →
      t.length = none) ∧
    ((∀ f ∈ Db.dbFields entry 0, f.1 = [116, 98, 105, 116] →
        jsParseInt (readUtf16BE f.2 0 f.2.length) = some 0) →
      t.bitrate = none) ∧
    ((∀ f ∈ Db.dbFields entry 0, f.1 = [116, 115, 109, 112] →
        jsParseInt (readUtf16BE f.2 0 f.2.length) = some 0) →
      t.sampleRate = none) ∧
    ((∀ f ∈ Db.dbFields entry 0, f.1 = [116, 116, 121, 114] →
        jsParseInt (readUtf16BE f.2 0 f.2.length) = some 0) →
      t.year = none) := by
  have hteq : t = Db.fieldsLoop entry 0 {} := by
    unfold Db.parseTrackEntry at ht
    by_cases hb : Db.truthyStr (Db.fieldsLoop entry 0 {}).filePath
    · simp only [hb, if_true] at ht
      exact (Option.some_inj.mp ht).symm
    · simp only [hb, if_false] at ht
      exact Option.noConfusion ht
  subst hteq
  refine ⟨?_, ?_, ?_, ?_, ?_⟩
  · intro hbpm
    refine fieldsLoop_invariant entry (fun u => u.bpm = none) 0 {} ?_ rfl
    intro f hf t2 ht2
    by_cases htag : f.1 = [116, 98, 112, 109]
    · rw [htag, applyField_tbpm, parseFieldValue_text _ _ (by decide)]
      by_cases hp : f.2.length = 0
      · rw [if_pos hp]
        exact ht2
      · rw [if_neg hp]
        show Db.floatOrNone (readUtf16BE f.2 0 f.2.length) = none
        have hz := hbpm f hf htag
        unfold Db.floatOrNone
        cases hq : jsParseFloat (readUtf16BE f.2 0 f.2.length) with
        | none => rfl
        | some q =>
          rw [hq] at hz
          simp only [Option.map_some', Option.some_inj] at hz
          simp [hz]
    · rw [applyField_bpm f.1 _ t2 htag]
      exact ht2
  · intro hlen
    refine fieldsLoop_invariant entry (fun u => u.length = none) 0 {} ?_ rfl
    intro f hf t2 ht2
    by_cases htag : f.1 = [116, 108, 101, 110]
    · rw [htag, applyField_tlen, parseFieldValue_text _ _ (by decide)]
      by_cases hp : f.2.length = 0
      · rw [if_pos hp]
        exact ht2
      · rw [if_neg hp]
        show Db.floatOrNone (readUtf16BE f.2 0 f.2.length) = none
        have hz := hlen f hf htag
        unfold Db.floatOrNone
        cases hq : jsParseFloat (readUtf16BE f.2 0 f.2.length) with
        | none => rfl
        | some q =>
          rw [hq] at hz
          simp only [Option.map_some', Option.some_inj] at hz
          simp [hz]
    · rw [applyField_length f.1 _ t2 htag]
      exact ht2
  · intro hbit
    refine fieldsLoop_invariant entry (fun u => u.bitrate = none) 0 {} ?_ rfl
    intro f hf t2 ht2
    by_cases htag : f.1 = [116, 98, 105, 116]
    · rw [htag, applyField_tbit, parseFieldValue_text _ _ (by decide)]
      by_cases hp : f.2.length = 0
      · rw [if_pos hp]
        exact ht2
      · rw [if_neg hp]
        show Db.intOrNone (readUtf16BE f.2 0 f.2.length) = none
        have hz := hbit f hf htag
        unfold Db.intOrNone
        rw [hz]
        norm_num
    · rw [applyField_bitrate f.1 _ t2 htag]
      exact ht2
  · intro hsmp
    refine fieldsLoop_invariant entry (fun u => u.sampleRate = none) 0 {} ?_ rfl
    intro f hf t2 ht2
    by_cases htag : f.1 = [116, 115, 109, 112]
    · rw [htag, applyField_tsmp, parseFieldValue_text _ _ (by decide)]
      by_cases hp : f.2.length = 0
      · rw [if_pos hp]
        exact ht2
      · rw [if_neg hp]
        show Db.intOrNone (readUtf16BE f.2 0 f.2.length) = none
        have hz := hsmp f hf htag
        unfold Db.intOrNone
        rw [hz]
        norm_num
    · rw [applyField_sampleRate f.1 _ t2 htag]
      exact ht2
  · intro hyr
    refine fieldsLoop_invariant entry (fun u => u.year = none) 0 {} ?_ rfl
    intro f hf t2 ht2
    by_cases htag : f.1 = [116, 116, 121, 114]
    · rw [htag, applyField_ttyr, parseFieldValue_text _ _ (by decide)]
      by_cases hp : f.2.length = 0
      · rw [if_pos hp]
        exact ht2
      · rw [if_neg hp]
        show Db.intOrNone (readUtf16BE f.2 0 f.2.length) = none
        have hz := hyr f hf htag
        unfold Db.intOrNone
        rw [hz]
        norm_num
    · rw [applyField_year f.1 _ t2 htag]
      exact ht2

/-- Concrete track entry with mixed numeric fields: a pfil path, a tbpm
field holding the zero text 0.00 and a tlen field holding the nonzero text
240.5, both UTF-16 big-endian. -/
def entryMixed : List Nat :=
  [112, 102, 105, 108, 0, 0, 0, 2, 0, 65,
   116, 98, 112, 109, 0, 0, 0, 8, 0, 48, 0, 46, 0, 48, 0, 48,
   116, 108, 101, 110, 0, 0, 0, 10, 0, 50, 0, 52, 0, 48, 0, 46, 0, 53]

/-- The record the decoder accumulates on entryMixed: bpm absent, length
present at 240.5. -/
def entryMixedTrack : Db.SeratoDatabaseTrack :=
  { filePath := some [65]
    length := some { num := 2405, scale := 1 } }

/-- C9 witness: the per-field absence theorem applied to the mixed entry.
Only the tbpm occurrences parse to zero, so the first conjunct alone fires:
bpm comes out absent while length stays present at 240.5. -/
theorem db_zero_numeric_fields_absent_witness :
    entryMixedTrack.bpm = none ∧
      entryMixedTrack.length = some { num := 2405, scale := 1 } := by
  have hev : Db.fieldsLoop entryMixed 0 {} = entryMixedTrack := by
    rw [Db.fieldsLoop, dif_pos (by decide), dif_pos (by decide)]
    rw [Db.fieldsLoop, dif_pos (by decide), dif_pos (by decide)]
    rw [Db.fieldsLoop, dif_pos (by decide), dif_pos (by decide)]
    rw [Db.fieldsLoop, dif_neg (by decide)]
    decide
  have hfl : Db.dbFields entryMixed 0 =
      [([112, 102, 105, 108], [0, 65]),
        ([116, 98, 112, 109], [0, 48, 0, 46, 0, 48, 0, 48]),
        ([116, 108, 101, 110], [0, 50, 0, 52, 0, 48, 0, 46, 0, 53])] := by
    rw [Db.dbFields, dif_pos (by decide), dif_pos (by decide)]
    rw [Db.dbFields, dif_pos (by decide), dif_pos (by decide)]
    rw [Db.dbFields, dif_pos (by decide), dif_pos (by decide)]
    rw [Db.dbFields, dif_neg (by decide)]
    decide
  have h := db_zero_numeric_fields_absent entryMixed entryMixedTrack
    (by unfold Db.parseTrackEntry; simp only [hev]; decide)
  refine ⟨h.1 ?_, by decide⟩
  intro f hf
  rw [hfl] at hf
  fin_cases hf <;> decide

/-! ## Beatgrid decoder (parsers/geob/beatgrid.ts)

Float32 words (positions, BPM) are kept as their raw big-endian 32-bit bit
patterns, an injective encoding sufficient for the positional claims. -/

namespace Beatgrid

/-- One beatgrid marker: the last (terminal) marker carries bpm, the others
carry beatsToNext. -/
structure SeratoBeatgridMarker : Type where
  position : Nat
  bpm : Option Nat := none
  beatsToNext : Option Nat := none
deriving DecidableEq

/-- Parsed beatgrid record. -/
structure SeratoBeatgrid : Type where
  markers : List SeratoBeatgridMarker
deriving DecidableEq

/-- Function parseTerminalMarker: position plus a BPM float word. -/
def parseTerminalMarker (data : List Nat) (offset : Nat) :
    SeratoBeatgridMarker :=
  { position := readU32 data offset, bpm := some (readU32 data (offset + 4)) }

/-- Function parseNonTerminalMarker: position plus a beats-to-next count. -/
def parseNonTerminalMarker (data : List Nat) (offset : Nat) :
    SeratoBeatgridMarker :=
  { position := readU32 data offset,
    beatsToNext := some (readU32 data (offset + 4)) }

/-- Header size: 2 unknown bytes plus a 4-byte marker count. -/
def HEADER_SIZE : Nat := 6

/-- Size of one marker. -/
def MARKER_SIZE : Nat := 8

/-- Footer size. -/
def FOOTER_SIZE : Nat := 1

/-- Function parseBeatgrid: short buffers, zero counts and counts whose
markers do not fit yield an empty record; otherwise each marker is parsed
positionally, the last one as terminal. All reads are within the checked
range, so no range error can occur. -/
def parseBeatgrid (data : List Nat) : SeratoBeatgrid :=
  if data.length < HEADER_SIZE then { markers := [] }
  else
    let markerCount := readU32 data 2
    if markerCount = 0 then { markers := [] }
    else
      let expectedLength := HEADER_SIZE + markerCount * MARKER_SIZE + FOOTER_SIZE
      if data.length < expectedLength - FOOTER_SIZE then { markers := [] }
      else
        { markers :=
            (List.range markerCount).map fun i =>
              if i = markerCount - 1 then
                parseTerminalMarker data (HEADER_SIZE + i * MARKER_SIZE)
              else parseNonTerminalMarker data (HEADER_SIZE + i * MARKER_SIZE) }

end Beatgrid

/-- C4: in a parsed beatgrid with markers present, a marker carries a bpm
word exactly when it is in the last position, and a beatsToNext count exactly
when it is not: terminal-ness is purely positional, for every input buffer. -/
theorem beatgrid_terminal_positional (data : List Nat) (i : Nat)
    (h : i < (Beatgrid.parseBeatgrid data).markers.length) :
    (((Beatgrid.parseBeatgrid data).markers.getD i
          { position := 0 }).bpm.isSome ↔
        i = (Beatgrid.parseBeatgrid data).markers.length - 1) ∧
      (((Beatgrid.parseBeatgrid data).markers.getD i
          { position := 0 }).beatsToNext.isSome ↔
        ¬ i = (Beatgrid.parseBeatgrid data).markers.length - 1) := by
  unfold Beatgrid.parseBeatgrid at h ⊢
  by_cases h1 : data.length < Beatgrid.HEADER_SIZE
  · rw [if_pos h1] at h
    exact absurd h (by simp)
  · rw [if_neg h1] at h ⊢
    by_cases h2 : readU32 data 2 = 0
    · rw [if_pos h2] at h
      exact absurd h (by simp)
    · rw [if_neg h2] at h ⊢
      by_cases h3 : data.length <
          Beatgrid.HEADER_SIZE + readU32 data 2 * Beatgrid.MARKER_SIZE +
            Beatgrid.FOOTER_SIZE - Beatgrid.FOOTER_SIZE
      · rw [if_pos h3] at h
        exact absurd h (by simp)
      · rw [if_neg h3] at h ⊢
        simp only [List.length_map, List.length_range] at h ⊢
        have hget : ((List.range (readU32 data 2)).map fun j =>
            if j = readU32 data 2 - 1 then
              Beatgrid.parseTerminalMarker data
                (Beatgrid.HEADER_SIZE + j * Beatgrid.MARKER_SIZE)
            else
              Beatgrid.parseNonTerminalMarker data
                (Beatgrid.HEADER_SIZE + j * Beatgrid.MARKER_SIZE)).getD i
            { position := 0 } =
            (if i = readU32 data 2 - 1 then
              Beatgrid.parseTerminalMarker data
                (Beatgrid.HEADER_SIZE + i * Beatgrid.MARKER_SIZE)
            else
              Beatgrid.parseNonTerminalMarker data
                (Beatgrid.HEADER_SIZE + i * Beatgrid.MARKER_SIZE)) := by
          rw [List.getD_eq_getElem?_getD, List.getElem?_map,
            List.getElem?_range h]
          rfl
        rw [hget]
        by_cases hi : i = readU32 data 2 - 1
        · rw [if_pos hi]
          simp [Beatgrid.parseTerminalMarker, hi]
        · rw [if_neg hi]
          simp [Beatgrid.parseNonTerminalMarker, hi]

/-- Concrete two-marker beatgrid buffer: header with count 2, a non-terminal
marker with 16 beats to next, a terminal marker with a BPM word, one footer
byte. -/
def beatgridTwoMarkers : List Nat :=
  [0, 0, 0, 0, 0, 2,
   0, 0, 0, 0, 0, 0, 0, 16,
   64, 128, 0, 0, 67, 12, 0, 0,
   0]

/-- C4 witness: the positional theorem applied to a concrete two-marker
beatgrid buffer; the first marker carries beatsToNext, the second carries
bpm. -/
theorem beatgrid_terminal_positional_witness :
    ((((Beatgrid.parseBeatgrid beatgridTwoMarkers).markers.getD 0
          { position := 0 }).bpm.isSome ↔
        0 = (Beatgrid.parseBeatgrid beatgridTwoMarkers).markers.length - 1) ∧
      (((Beatgrid.parseBeatgrid beatgridTwoMarkers).markers.getD 0
          { position := 0 }).beatsToNext.isSome ↔
        ¬ 0 = (Beatgrid.parseBeatgrid beatgridTwoMarkers).markers.length - 1)) ∧
      (((Beatgrid.parseBeatgrid beatgridTwoMarkers).markers.getD 1
          { position := 0 }).bpm.isSome ↔
        1 = (Beatgrid.parseBeatgrid beatgridTwoMarkers).markers.length - 1) :=
  ⟨beatgrid_terminal_positional beatgridTwoMarkers 0 (by decide),
    (beatgrid_terminal_positional beatgridTwoMarkers 1 (by decide)).1⟩

/-! ## Markers2 decoder (parsers/geob/markers2.ts)

Float64 action payloads are kept as raw big-endian 64-bit bit words. The
entry loop is embedded with a structural fuel argument consumed once per
entry; each entry advances the cursor by at least five bytes inside the
buffer, so the entry points pass fuel exceeding any possible iteration
count and exhaustion is unreachable from them. -/

namespace Markers2

/-- RGB color. -/
structure SeratoColor : Type where
  r : Nat
  g : Nat
  b : Nat
deriving DecidableEq

/-- ARGB loop color. -/
structure SeratoLoopColor : Type where
  r : Nat
  g : Nat
  b : Nat
  a : Nat
deriving DecidableEq

/-- Flip action: jump or censor, with positions as raw float64 words. -/
inductive SeratoFlipAction : Type where
  | jump (sourcePosition targetPosition : Nat)
  | censor (sourcePosition targetPosition speedFactor : Nat)
deriving DecidableEq

/-- Cue point record. -/
structure SeratoCuePoint : Type where
  index : Nat
  position : Nat
  color : SeratoColor
  name : Option (List Nat)
deriving DecidableEq

/-- Loop record. -/
structure SeratoLoop : Type where
  index : Nat
  startPosition : Nat
  endPosition : Nat
  color : SeratoLoopColor
  locked : Bool
  name : Option (List Nat)
deriving DecidableEq

/-- Flip record. -/
structure SeratoFlip : Type where
  index : Nat
  enabled : Bool
  name : List Nat
  loop : Bool
  actions : List SeratoFlipAction
deriving DecidableEq

/-- Markers2 result record. -/
structure SeratoMarkers2 : Type where
  trackColor : Option SeratoColor := none
  bpmLock : Option Bool := none
  cuePoints : List SeratoCuePoint := []
  loops : List SeratoLoop := []
  flips : List SeratoFlip := []
deriving DecidableEq

/-- Node readDoubleBE, kept as the raw 64-bit word; range-checked. -/
def readF64? (buf : List Nat) (off : Nat) : Option Nat :=
  if off + 8 ≤ buf.length then
    some (readU32 buf off * 2 ^ 32 + readU32 buf (off + 4))
  else none

/-- Function readNullTerminatedString: the bytes before the first NUL (or
the end of the buffer); the cursor advance of the source is the returned
length plus one. -/
def readNTS (buffer : List Nat) (offset : Nat) : List Nat :=
  (buffer.drop offset).takeWhile (· ≠ 0)

/-- Function parseCue. -/
def parseCue (data : List Nat) : Option SeratoCuePoint := do
  let index ← readU8? data 1
  let position ← readU32? data 2
  let r ← readU8? data 7
  let g ← readU8? data 8
  let b ← readU8? data 9
  let name :=
    if data.length > 12 then
      let v := readNTS data 12
      if v ≠ [] then some v else none
    else none
  pure { index := index
         position := position
         color := ⟨r, g, b⟩
         name := name }

/-- Function parseLoop. -/
def parseLoop (data : List Nat) : Option SeratoLoop := do
  let index ← readU8? data 1
  let startPosition ← readU32? data 2
  let endPosition ← readU32? data 6
  let a ← readU8? data 14
  let r ← readU8? data 15
  let g ← readU8? data 16
  let b ← readU8? data 17
  let lockedByte ← readU8? data 21
  let name :=
    if data.length > 22 then
      let v := readNTS data 22
      if v ≠ [] then some v else none
    else none
  pure { index := index
         startPosition := startPosition
         endPosition := endPosition
         color := ⟨r, g, b, a⟩
         locked := lockedByte ≠ 0
         name := name }

/-- The action loop of parseFlip, structural on the declared action count. -/
def flipActions (data : List Nat) : Nat → Nat → Option (List SeratoFlipAction)
  | _, 0 => some []
  | offset, count + 1 => do
    let ty ← readU8? data offset
    let len ← readU32? data (offset + 1)
    if ty = 0 then do
      let src ← readF64? data (offset + 5)
      let tgt ← readF64? data (offset + 5 + 8)
      let rest ← flipActions data (offset + 5 + len) count
      pure (.jump src tgt :: rest)
    else if ty = 1 then do
      let src ← readF64? data (offset + 5)
      let tgt ← readF64? data (offset + 5 + 8)
      let speed ← readF64? data (offset + 5 + 16)
      let rest ← flipActions data (offset + 5 + len) count
      pure (.censor src tgt speed :: rest)
    else do
      let rest ← flipActions data (offset + 5 + len) count
      pure rest

/-- Function parseFlip. -/
def parseFlip (data : List Nat) : Option SeratoFlip := do
  let index ← readU8? data 1
  let enabledByte ← readU8? data 2
  let name := readNTS data 3
  let offset := 3 + (name.length + 1)
  let loopByte ← readU8? data offset
  let actionCount ← readU32? data (offset + 1)
  let actions ← flipActions data (offset + 5) actionCount
  pure { index := index
         enabled := enabledByte ≠ 0
         name := name
         loop := loopByte ≠ 0
         actions := actions }

/-- Function parseColor. -/
def parseColor (data : List Nat) : Option SeratoColor := do
  let r ← readU8? data 1
  let g ← readU8? data 2
  let b ← readU8? data 3
  pure ⟨r, g, b⟩

/-- Function parseBpmLock. -/
def parseBpmLock (data : List Nat) : Option Bool := do
  let b ← readU8? data 0
  pure (b ≠ 0)

/-- The entry walk of parseMarkers2: stop at a NUL byte or the end, read the
null-terminated type name and big-endian length, skip truncated entries
silently, dispatch known types (a failed sub-parse propagates the thrown
range error), ignore unknown types. -/
def markers2Loop (fuel : Nat) (data : List Nat) (offset : Nat)
    (acc : SeratoMarkers2) : Option SeratoMarkers2 :=
  if offset < data.length then
    match fuel with
    | 0 => none
    | fuel + 1 =>
      if bufGet data offset = 0 then some acc
      else
        let entryType := readNTS data offset
        let off2 := offset + (entryType.length + 1)
        if off2 + 4 > data.length then some acc
        else
          let entryLength := readU32 data off2
          if off2 + 4 + entryLength > data.length then some acc
          else
            let entryData := bufSlice data (off2 + 4) entryLength
            let off4 := off2 + 4 + entryLength
            if entryType = [67, 85, 69] then
              match parseCue entryData with
              | none => none
              | some c =>
                markers2Loop fuel data off4
                  { acc with cuePoints := acc.cuePoints ++ [c] }
            else if entryType = [76, 79, 79, 80] then
              match parseLoop entryData with
              | none => none
              | some l =>
                markers2Loop fuel data off4
                  { acc with loops := acc.loops ++ [l] }
            else if entryType = [70, 76, 73, 80] then
              match parseFlip entryData with
              | none => none
              | some fl =>
                markers2Loop fuel data off4
                  { acc with flips := acc.flips ++ [fl] }
            else if entryType = [67, 79, 76, 79, 82] then
              match parseColor entryData with
              | none => none
              | some col =>
                markers2Loop fuel data off4 { acc with trackColor := some col }
            else if entryType = [66, 80, 77, 76, 79, 67, 75] then
              match parseBpmLock entryData with
              | none => none
              | some bl =>
                markers2Loop fuel data off4 { acc with bpmLock := some bl }
            else markers2Loop fuel data off4 acc
  else some acc

/-- JavaScript sort with the comparator on index fields: the ECMAScript
specification pins the result to the unique stable sort by that key, which
insertion sort computes. -/
def sortCues (l : List SeratoCuePoint) : List SeratoCuePoint :=
  List.insertionSort (fun a b => a.index ≤ b.index) l

/-- Stable sort of loops by index. -/
def sortLoops (l : List SeratoLoop) : List SeratoLoop :=
  List.insertionSort (fun a b => a.index ≤ b.index) l

/-- Stable sort of flips by index. -/
def sortFlips (l : List SeratoFlip) : List SeratoFlip :=
  List.insertionSort (fun a b => a.index ≤ b.index) l

/-- Function parseMarkers2: skip the 0x01 0x01 header if present, walk the
entries, then sort cue points, loops and flips by index. -/
def parseMarkers2 (data : List Nat) : Option SeratoMarkers2 :=
  let offset :=
    if 2 ≤ data.length ∧ bufGet data 0 = 1 ∧ bufGet data 1 = 1 then 2 else 0
  (markers2Loop (data.length + 1) data offset {}).map fun r =>
    { r with
        cuePoints := sortCues r.cuePoints
        loops := sortLoops r.loops
        flips := sortFlips r.flips }

end Markers2

instance : IsTotal Markers2.SeratoCuePoint (fun a b => a.index ≤ b.index) :=
  ⟨fun a b => Nat.le_total a.index b.index⟩

instance : IsTrans Markers2.SeratoCuePoint (fun a b => a.index ≤ b.index) :=
  ⟨fun _ _ _ => Nat.le_trans⟩

instance : IsTotal Markers2.SeratoLoop (fun a b => a.index ≤ b.index) :=
  ⟨fun a b => Nat.le_total a.index b.index⟩

instance : IsTrans Markers2.SeratoLoop (fun a b => a.index ≤ b.index) :=
  ⟨fun _ _ _ => Nat.le_trans⟩

instance : IsTotal Markers2.SeratoFlip (fun a b => a.index ≤ b.index) :=
  ⟨fun a b => Nat.le_total a.index b.index⟩

instance : IsTrans Markers2.SeratoFlip (fun a b => a.index ≤ b.index) :=
  ⟨fun _ _ _ => Nat.le_trans⟩

/-- C6: in every record parseMarkers2 returns, the cue points, loops and
flips are each sorted ascending by their index field, whatever order the
entries had in the buffer. -/
theorem markers2_sorted_by_index (data : List Nat)
    (r : Markers2.SeratoMarkers2) (h : Markers2.parseMarkers2 data = some r) :
    List.Sorted (fun a b => a.index ≤ b.index) r.cuePoints ∧
      List.Sorted (fun a b => a.index ≤ b.index) r.loops ∧
      List.Sorted (fun a b => a.index ≤ b.index) r.flips := by
  unfold Markers2.parseMarkers2 at h
  cases hm : Markers2.markers2Loop (data.length + 1) data
      (if 2 ≤ data.length ∧ bufGet data 0 = 1 ∧ bufGet data 1 = 1 then 2
        else 0) {} with
  | none =>
    simp only [hm, Option.map_none'] at h
    exact Option.noConfusion h
  | some acc =>
    simp only [hm, Option.map_some', Option.some_inj] at h
    rw [← h]
    exact ⟨List.sorted_insertionSort _ _, List.sorted_insertionSort _ _,
      List.sorted_insertionSort _ _⟩

/-- Concrete Markers2 buffer: header, a CUE at index 2, then a CUE at
index 0, then the terminator. -/
def cueTestBuf : List Nat :=
  [1, 1,
   67, 85, 69, 0, 0, 0, 0, 13,
     0, 2, 0, 0, 3, 232, 0, 204, 0, 0, 0, 0, 0,
   67, 85, 69, 0, 0, 0, 0, 13,
     0, 0, 0, 0, 1, 0, 0, 0, 204, 0, 0, 0, 0,
   0]

/-- The record parseMarkers2 yields on cueTestBuf: the cue points come out
sorted by index even though the file order was reversed. -/
def cueTestRecord : Markers2.SeratoMarkers2 :=
  { cuePoints :=
      [{ index := 0
         position := 256
         color := ⟨0, 204, 0⟩
         name := none },
        { index := 2
          position := 1000
          color := ⟨204, 0, 0⟩
          name := none }] }

/-- C6 witness: the sortedness theorem applied to a concrete buffer whose
cue entries appear in descending index order. -/
theorem markers2_sorted_by_index_witness :
    List.Sorted (fun a b => a.index ≤ b.index) cueTestRecord.cuePoints ∧
      List.Sorted (fun a b => a.index ≤ b.index) cueTestRecord.loops ∧
      List.Sorted (fun a b => a.index ≤ b.index) cueTestRecord.flips :=
  markers2_sorted_by_index cueTestBuf cueTestRecord (by decide)

/-! ## Base64 codecs (unnamed base64 module and the markers2 entry point) -/

namespace B64

/-- Value of one base64 alphabet character; anything else (padding included)
is skipped by the forgiving Node decoder. -/
def b64CharVal (c : Nat) : Option Nat :=
  if 65 ≤ c ∧ c ≤ 90 then some (c - 65)
  else if 97 ≤ c ∧ c ≤ 122 then some (c - 71)
  else if 48 ≤ c ∧ c ≤ 57 then some (c + 4)
  else if c = 43 then some 62
  else if c = 47 then some 63
  else none

/-- Reassemble bytes from sextets, four at a time; a trailing group of three
or two sextets yields two or one bytes, a lone trailing sextet none. -/
def b64SextetsToBytes : List Nat → List Nat
  | s0 :: s1 :: s2 :: s3 :: rest =>
    (s0 * 4 + s1 / 16) :: ((s1 % 16) * 16 + s2 / 4) :: ((s2 % 4) * 64 + s3) ::
      b64SextetsToBytes rest
  | [s0, s1, s2] => [s0 * 4 + s1 / 16, (s1 % 16) * 16 + s2 / 4]
  | [s0, s1] => [s0 * 4 + s1 / 16]
  | _ => []

/-- Node Buffer.from with the base64 codec: skip characters outside the
alphabet, then decode sextet groups. -/
def base64DecodeNode (s : List Nat) : List Nat :=
  b64SextetsToBytes (s.filterMap b64CharVal)

end B64

namespace Markers2

/-- Function parseMarkers2FromBase64: strip whitespace, repair the length
modulo 4 (dropping the known one-character overflow, or padding with equal
signs), decode, then run the byte-level decoder. -/
def parseMarkers2FromBase64 (base64Data : List Nat) : Option SeratoMarkers2 :=
  let cleaned := base64Data.filter (fun c => ! jsWhitespace c)
  let remainder := cleaned.length % 4
  let fixed :=
    if remainder = 1 then cleaned.dropLast
    else if remainder = 2 then cleaned ++ [61, 61]
    else if remainder = 3 then cleaned ++ [61]
    else cleaned
  parseMarkers2 (B64.base64DecodeNode fixed)

/-- The base64 entry point as the specification words it: remove all
whitespace; if the cleaned length modulo 4 is 1 drop the last character,
if 2 or 3 append that many fewer than four equal signs; only then decode
and run the byte-level decoder. Stated for comparison with the source
translation above. -/
def markers2FromBase64PerSpec (s : List Nat) : Option SeratoMarkers2 :=
  let cleaned := s.filter (fun c => ! jsWhitespace c)
  let fixed :=
    if cleaned.length % 4 = 1 then cleaned.dropLast
    else cleaned ++ List.replicate ((4 - cleaned.length % 4) % 4) 61
  parseMarkers2 (B64.base64DecodeNode fixed)

end Markers2

/-- C7: the base64 entry point equals the pipeline the spec describes:
whitespace removal first, then the modulo-4 repair (drop one character, or
pad with two or one equal signs), then base64 decoding feeding the
byte-level decoder. -/
theorem markers2_base64_pipeline (s : List Nat) :
    Markers2.parseMarkers2FromBase64 s = Markers2.markers2FromBase64PerSpec s := by
  unfold Markers2.parseMarkers2FromBase64 Markers2.markers2FromBase64PerSpec
  have h : (s.filter (fun c => ! jsWhitespace c)).length % 4 = 0 ∨
      (s.filter (fun c => ! jsWhitespace c)).length % 4 = 1 ∨
      (s.filter (fun c => ! jsWhitespace c)).length % 4 = 2 ∨
      (s.filter (fun c => ! jsWhitespace c)).length % 4 = 3 := by omega
  rcases h with h | h | h | h <;> simp [h, List.replicate]

namespace B64

/-- The standard base64 alphabet character for a sextet value. -/
def b64CharOf (v : Nat) : Nat :=
  if v < 26 then v + 65
  else if v < 52 then v + 71
  else if v < 62 then v - 4
  else if v = 62 then 43
  else 47

/-- Node Buffer.toString with the base64 codec: standard base64 with
padding, three bytes to four characters, a short final group padded with
one or two equal signs. -/
def base64EncodeNode : List Nat → List Nat
  | [] => []
  | [b0] => [b64CharOf (b0 / 4), b64CharOf (b0 % 4 * 16), 61, 61]
  | [b0, b1] =>
    [b64CharOf (b0 / 4), b64CharOf (b0 % 4 * 16 + b1 / 16),
      b64CharOf (b1 % 16 * 4), 61]
  | b0 :: b1 :: b2 :: rest =>
    b64CharOf (b0 / 4) :: b64CharOf (b0 % 4 * 16 + b1 / 16) ::
      b64CharOf (b1 % 16 * 4 + b2 / 64) :: b64CharOf (b2 % 64) ::
      base64EncodeNode rest

/-- The regular-expression replace of a trailing run of equal signs by the
empty string. -/
def dropTrailingEq (s : List Nat) : List Nat :=
  (s.reverse.dropWhile (fun c => c == 61)).reverse

/-- The slicing loop of encodeWithLinebreaks: successive slices of
seventy-two characters, the last one possibly shorter. -/
def chunks72 (s : List Nat) : List (List Nat) :=
  if h2 : s = [] then []
  else s.take 72 :: chunks72 (s.drop 72)
termination_by s.length
decreasing_by
  simp only [List.length_drop]
  have hp : 0 < s.length := List.length_pos.mpr h2
  omega

/-- Function encodeWithLinebreaks: base64 without the trailing padding,
sliced into seventy-two character lines joined by a linefeed. -/
def encodeWithLinebreaks (input : List Nat) : List Nat :=
  List.intercalate [10] (chunks72 (dropTrailingEq (base64EncodeNode input)))

end B64

lemma b64CharOf_ne (v : Nat) : B64.b64CharOf v ≠ 61 ∧ B64.b64CharOf v ≠ 10 := by
  unfold B64.b64CharOf
  split_ifs <;> omega

lemma base64EncodeNode_shape (input : List Nat) :
    ∃ body k, B64.base64EncodeNode input = body ++ List.replicate k 61 ∧
      ∀ c ∈ body, c ≠ 61 ∧ c ≠ 10 := by
  induction input using B64.base64EncodeNode.induct with
  | case1 =>
    exact ⟨[], 0, rfl, by simp⟩
  | case2 b0 =>
    refine ⟨[B64.b64CharOf (b0 / 4), B64.b64CharOf (b0 % 4 * 16)], 2, rfl, ?_⟩
    intro c hc
    rcases List.mem_cons.mp hc with rfl | hc2
    · exact b64CharOf_ne _
    rcases List.mem_cons.mp hc2 with rfl | hc3
    · exact b64CharOf_ne _
    · simp at hc3
  | case3 b0 b1 =>
    refine ⟨[B64.b64CharOf (b0 / 4), B64.b64CharOf (b0 % 4 * 16 + b1 / 16),
      B64.b64CharOf (b1 % 16 * 4)], 1, rfl, ?_⟩
    intro c hc
    rcases List.mem_cons.mp hc with rfl | hc2
    · exact b64CharOf_ne _
    rcases List.mem_cons.mp hc2 with rfl | hc3
    · exact b64CharOf_ne _
    rcases List.mem_cons.mp hc3 with rfl | hc4
    · exact b64CharOf_ne _
    · simp at hc4
  | case4 b0 b1 b2 rest ih =>
    obtain ⟨body, k, heq, hbody⟩ := ih
    refine ⟨B64.b64CharOf (b0 / 4) :: B64.b64CharOf (b0 % 4 * 16 + b1 / 16) ::
      B64.b64CharOf (b1 % 16 * 4 + b2 / 64) :: B64.b64CharOf (b2 % 64) :: body,
      k, ?_, ?_⟩
    · show B64.base64EncodeNode (b0 :: b1 :: b2 :: rest) = _
      rw [B64.base64EncodeNode, heq]
      rfl
    · intro c hc
      rcases List.mem_cons.mp hc with rfl | hc2
      · exact b64CharOf_ne _
      rcases List.mem_cons.mp hc2 with rfl | hc3
      · exact b64CharOf_ne _
      rcases List.mem_cons.mp hc3 with rfl | hc4
      · exact b64CharOf_ne _
      rcases List.mem_cons.mp hc4 with rfl | hc5
      · exact b64CharOf_ne _
      · exact hbody c hc5

lemma dropWhile_replicate_append (k : Nat) (l : List Nat) :
    List.dropWhile (fun c => c == 61) (List.replicate k 61 ++ l) =
      List.dropWhile (fun c => c == 61) l := by
  induction k with
  | zero => simp
  | succ k ih => simp [List.replicate_succ, List.dropWhile_cons, ih]

lemma dropWhile_eq_self_of_ne (l : List Nat) (h : ∀ c ∈ l, c ≠ 61) :
    List.dropWhile (fun c => c == 61) l = l := by
  cases l with
  | nil => rfl
  | cons a t =>
    have ha : a ≠ 61 := h a (List.mem_cons_self a t)
    simp [List.dropWhile_cons, ha]

lemma dropTrailingEq_spec (body : List Nat) (k : Nat)
    (hb : ∀ c ∈ body, c ≠ 61) :
    B64.dropTrailingEq (body ++ List.replicate k 61) = body := by
  unfold B64.dropTrailingEq
  rw [List.reverse_append, List.reverse_replicate, dropWhile_replicate_append,
    dropWhile_eq_self_of_ne _ (fun c hc => hb c (List.mem_reverse.mp hc)),
    List.reverse_reverse]

lemma dropTrailingEq_encode (input : List Nat) :
    ∀ c ∈ B64.dropTrailingEq (B64.base64EncodeNode input), c ≠ 61 ∧ c ≠ 10 := by
  obtain ⟨body, k, heq, hbody⟩ := base64EncodeNode_shape input
  rw [heq, dropTrailingEq_spec body k (fun c hc => (hbody c hc).1)]
  exact hbody

lemma chunks72_props (s : List Nat) :
    (∀ l ∈ B64.chunks72 s, l ≠ [] ∧ ∀ c ∈ l, c ∈ s) ∧
      ∀ l ∈ (B64.chunks72 s).dropLast, l.length = 72 := by
  induction s using B64.chunks72.induct with
  | case1 =>
    rw [B64.chunks72, dif_pos rfl]
    simp
  | case2 s h ih =>
    rw [B64.chunks72, dif_neg h]
    constructor
    · intro l hl
      rcases List.mem_cons.mp hl with rfl | hl2
      · refine ⟨?_, fun c hc => List.take_subset _ _ hc⟩
        simp [List.take_eq_nil_iff, h]
      · obtain ⟨h1, h2⟩ := ih.1 l hl2
        exact ⟨h1, fun c hc => List.drop_subset _ _ (h2 c hc)⟩
    · intro l hl
      cases hc : B64.chunks72 (s.drop 72) with
      | nil =>
        rw [hc] at hl
        simp at hl
      | cons a t =>
        rw [hc, List.dropLast_cons₂] at hl
        have hd : s.drop 72 ≠ [] := by
          intro hnil
          rw [hnil, B64.chunks72, dif_pos rfl] at hc
          exact List.noConfusion hc
        have hlen : 72 < s.length := by
          have hp := List.length_pos.mpr hd
          rw [List.length_drop] at hp
          omega
        rcases List.mem_cons.mp hl with rfl | hl2
        · simp [List.length_take]
          omega
        · have := ih.2 l
          rw [hc] at this
          exact this hl2

lemma mem_intersperse {α : Type} (sep : α) (l : List α) (a : α)
    (h : a ∈ List.intersperse sep l) : a = sep ∨ a ∈ l := by
  induction l with
  | nil => simp at h
  | cons b t ih =>
    cases t with
    | nil =>
      simp at h
      exact Or.inr (by simp [h])
    | cons c t2 =>
      rw [List.intersperse_cons₂] at h
      rcases List.mem_cons.mp h with rfl | h2
      · exact Or.inr (List.mem_cons_self _ _)
      rcases List.mem_cons.mp h2 with rfl | h3
      · exact Or.inl rfl
      · rcases ih h3 with h4 | h4
        · exact Or.inl h4
        · exact Or.inr (List.mem_cons_of_mem _ h4)

lemma intercalate_cons_cons {α : Type} (sep a b : List α) (t : List (List α)) :
    List.intercalate sep (a :: b :: t) =
      a ++ sep ++ List.intercalate sep (b :: t) := by
  simp [List.intercalate, List.intersperse_cons₂, List.flatten_cons,
    List.append_assoc]

lemma intercalate_ne_nil_of_head {α : Type} (sep a : List α) (t : List (List α))
    (ha : a ≠ []) : List.intercalate sep (a :: t) ≠ [] := by
  cases t with
  | nil => simpa [List.intercalate] using ha
  | cons b t2 =>
    rw [intercalate_cons_cons]
    simp [List.append_eq_nil, ha]

lemma getLast_intercalate_nl (ls : List (List Nat))
    (hne : ∀ l ∈ ls, l ≠ []) (hten : ∀ l ∈ ls, (10 : Nat) ∉ l) :
    (List.intercalate [10] ls).getLast? ≠ some 10 := by
  induction ls with
  | nil =>
    simp [List.intercalate]
  | cons a t ih =>
    cases t with
    | nil =>
      intro hc
      have : (10 : Nat) ∈ a := by
        have ha : List.intercalate [10] [a] = a := by
          simp [List.intercalate]
        rw [ha] at hc
        exact List.mem_of_getLast?_eq_some hc
      exact hten a (List.mem_cons_self _ _) this
    | cons b t2 =>
      rw [intercalate_cons_cons]
      have hrest : List.intercalate [10] (b :: t2) ≠ [] :=
        intercalate_ne_nil_of_head _ _ _ (hne b (by simp))
      rw [List.getLast?_append_of_ne_nil _ hrest]
      exact ih (fun l hl => hne l (List.mem_cons_of_mem _ hl))
        (fun l hl => hten l (List.mem_cons_of_mem _ hl))

/-- C8: the string encodeWithLinebreaks returns contains no equal sign,
every line before the last is exactly seventy-two characters long, and the
string does not end in a line break. -/
theorem encode_with_linebreaks_shape (input : List Nat) :
    61 ∉ B64.encodeWithLinebreaks input ∧
      (∀ l ∈ ((B64.encodeWithLinebreaks input).splitOn 10).dropLast,
        l.length = 72) ∧
      (B64.encodeWithLinebreaks input).getLast? ≠ some 10 := by
  unfold B64.encodeWithLinebreaks
  obtain ⟨hmem, hlen⟩ := chunks72_props (B64.dropTrailingEq (B64.base64EncodeNode input))
  have hchar := dropTrailingEq_encode input
  have hne : ∀ l ∈ B64.chunks72 (B64.dropTrailingEq (B64.base64EncodeNode input)),
      l ≠ [] := fun l hl => (hmem l hl).1
  have hten : ∀ l ∈ B64.chunks72 (B64.dropTrailingEq (B64.base64EncodeNode input)),
      (10 : Nat) ∉ l := by
    intro l hl hc
    exact (hchar 10 ((hmem l hl).2 10 hc)).2 rfl
  refine ⟨?_, ?_, getLast_intercalate_nl _ hne hten⟩
  · intro hc
    rw [List.intercalate] at hc
    obtain ⟨l, hl, hcl⟩ := List.mem_flatten.mp hc
    rcases mem_intersperse _ _ _ hl with rfl | hl2
    · simp at hcl
    · exact (hchar 61 ((hmem l hl2).2 61 hcl)).1 rfl
  · cases hls : B64.chunks72 (B64.dropTrailingEq (B64.base64EncodeNode input)) with
    | nil =>
      simp [List.intercalate, List.splitOn_nil]
    | cons a t =>
      have hsplit : (List.intercalate [10] (a :: t)).splitOn 10 = a :: t :=
        List.splitOn_intercalate (a :: t) 10
          (fun l hl => hten l (by rw [hls]; exact hl)) (List.cons_ne_nil a t)
      rw [hsplit]
      intro l hl
      exact hlen l (by rw [hls]; exact hl)
